import Mathlib

/-!
Verification development for the galleryloom scan engine.

The definitions below are a shallow embedding of the Python sources of the
repository (mainly app/services/scan_service.py and
app/services/duplicates_service.py).  Strings are modelled as lists of
characters, filesystem paths as lists of components, machine floats
(file mtimes) as natural numbers (only equality of signatures matters to the
engine, so any exact numeric carrier is adequate), and the mutable stores
(record table, output filesystem) as functions from paths to optional
entries.  Fallible operations return Except or Option values.
-/

namespace GalleryLoom

/-- Strings are modelled as lists of characters, so that list lemmas apply. -/
abbrev Str := List Char

/-- Paths are lists of components, mirroring pathlib PurePath parts. -/
abbrev FPath := List Str

/-- Conversion from a Lean string literal to the character-list model. -/
def lit (s : String) : Str := s.data

/-- Last component of a path, the empty string for the empty path.  This
mirrors pathlib, where the name of the dot path is the empty string. -/
def pathName (p : FPath) : Str := (p.getLast?).getD []

/-- Parent path, dropping the final component; mirrors PurePath.parent. -/
def pathParent (p : FPath) : FPath := p.dropLast

/-- Rendering of a path as the slash-joined string, used for the sort keys
of the walker and for the keys of the flatten name map. -/
def pathStr (p : FPath) : Str := (p.intersperse (lit "/")).flatten

/-- Byte-wise comparison on strings, the comparator Python uses for sorted. -/
def strLe : Str → Str → Bool
  | [], _ => true
  | _ :: _, [] => false
  | a :: x, b :: y => if a = b then strLe x y else decide (a.val < b.val)

/-- Insertion into a list sorted by a boolean comparator. -/
def insSorted (le : α → α → Bool) (a : α) : List α → List α
  | [] => [a]
  | b :: r => if le a b then a :: b :: r else b :: insSorted le a r

/-- Insertion sort by a boolean comparator; models the sorted builtin. -/
def sortBy (le : α → α → Bool) : List α → List α
  | [] => []
  | a :: r => insSorted le a (sortBy le r)

/-- Trailing run of non-dot characters of a name. -/
def trailingRun (n : Str) : Str := (n.reverse.takeWhile (fun c => c ≠ '.')).reverse

/-- Suffix of a file name under the pathlib rules: the part from the last
dot on, empty when the last dot is leading, trailing or absent. -/
def nameSuffix (n : Str) : Str :=
  if 0 < (trailingRun n).length ∧ (trailingRun n).length + 1 < n.length then
    '.' :: trailingRun n
  else []

/-- Stem of a file name: the name with its suffix removed. -/
def nameStem (n : Str) : Str := n.take (n.length - (nameSuffix n).length)

/-- Lowercasing of a string, via the char-level lowercase map. -/
def strLower (s : Str) : Str := s.map Char.toLower

/-- Stripping of all leading dots, modelling the lstrip call on suffixes. -/
def lstripDots (s : Str) : Str := s.dropWhile (fun c => c = '.')

/-- Membership test of a file in an extension list; embeds ext_in_list:
the lowercased dot-stripped suffix must occur among the lowercased
dot-stripped options. -/
def extInList (name : Str) (options : List Str) : Bool :=
  (options.map (fun e => lstripDots (strLower e))).contains
    (lstripDots (strLower (nameSuffix name)))

/-- Content signatures: the archive form stores stat size and mtime, the
gallery form stores image count, total image bytes and newest mtime.  Two
signatures are equal exactly when their serialized dicts are equal, which
the constructor separation models (an archive dict never equals a gallery
dict). -/
inductive Sig where
  | archive (size mtime : Nat)
  | gallery (imageCount totalImageBytes newestMtime : Nat)
deriving DecidableEq, Repr

/-- Signature of an archive file from its stat data. -/
def archiveSignature (size mtime : Nat) : Sig := .archive size mtime

/-!  Claim C9: gallery signatures.  The function gallery_signature stats
every listed image; it is embedded against a stat oracle that may fail
(a missing file makes the stat call raise), so that totality on the empty
list is a statement about every oracle. -/

/-- Embedding of gallery_signature over a stat oracle returning size and
mtime for a path, or none when the stat call would raise.  On the empty
list the zero triple is returned at once; otherwise every image is
statted and the count, byte sum and mtime maximum are produced. -/
def gallerySignatureStat (images : List FPath) (stat : FPath → Option (Nat × Nat)) :
    Except Unit Sig :=
  if images.isEmpty then .ok (.gallery 0 0 0)
  else do
    let stats ← images.mapM (fun p => (stat p).elim (.error ()) .ok)
    .ok (.gallery images.length (stats.map Prod.fst).sum ((stats.map Prod.snd).foldr max 0))

/-- Signature of a gallery computed from already gathered image stat data;
this is the form the scan pipeline uses once the walker has produced the
image list together with sizes and mtimes. -/
def gallerySignatureOf (files : List (FPath × Nat × Nat)) : Sig :=
  if files.isEmpty then .gallery 0 0 0
  else .gallery files.length (files.map (fun f => f.2.1)).sum
    ((files.map (fun f => f.2.2)).foldr max 0)

/-!  Claim C10: the duplicates acknowledgement store. -/

/-- Observable states of the acknowledgement file: absent, unreadable or
non-JSON content, JSON that is not a list, or a JSON array of strings. -/
inductive AckFile where
  | missing
  | invalid
  | notAList
  | arr (l : List Str)
deriving DecidableEq

/-- Embedding of load_acknowledged: a missing file yields the empty set, a
parse failure yields the empty set, parsed JSON that is not a list yields
the empty set, and an array yields the set of its members. -/
def loadAcknowledged : AckFile → Finset Str
  | .missing => ∅
  | .invalid => ∅
  | .notAList => ∅
  | .arr l => l.toFinset

/-- Embedding of mark_acknowledged: the stored set is loaded, the new keys
are added, and the file is rewritten as the sorted deduplicated array. -/
def markAcknowledged (keys : List Str) (f : AckFile) : AckFile :=
  .arr (Finset.sort (· ≤ ·) (loadAcknowledged f ∪ keys.toFinset))

/-!  Claim C5: the atomic zip write.  The function write_zip is embedded
against an oracle that decides at each fallible primitive whether the
operating system raises; the filesystem is a set of paths.  The embedding
follows the control flow of write_zip line by line, including the finally
block that unlinks the temporary file and any partial file. -/

/-- Presence map for the fragment of the filesystem the zip writer touches. -/
abbrev ZipFs := FPath → Bool

/-- Failure oracle for one call to write_zip.  Each field tells whether the
corresponding primitive raises; renameOutcome distinguishes success, a
cross-device error, and any other error. -/
structure ZipOracle where
  tmpDirFail : Bool
  tmpRootFail : Bool
  zipFail : Bool
  mkdirFail : Bool
  renameExdev : Bool
  renameFail : Bool
  copyFail : Bool
  copyPartialCreated : Bool
  rename2Fail : Bool
  rand1 : Str
  rand2 : Str

/-- Path of the partial file: the target with .partial appended to its
suffix, which is always the sibling whose name is the target name followed
by .partial. -/
def partialPath (target : FPath) : FPath :=
  pathParent target ++ [pathName target ++ lit ".partial"]

/-- Name of a temporary zip file created next to the target: the stem, an
underscore, the random part the tempfile module chooses, and .zip.tmp. -/
def tmpZipName (target : FPath) (rand : Str) : Str :=
  nameStem (pathName target) ++ lit "_" ++ rand ++ lit ".zip.tmp"

/-- Temporary path candidate inside the target directory. -/
def tmpInTargetDir (target : FPath) (o : ZipOracle) : FPath :=
  pathParent target ++ [tmpZipName target o.rand1]

/-- Temporary path candidate inside the fallback temp root. -/
def tmpInTmpRoot (tmpRoot : FPath) (target : FPath) (o : ZipOracle) : FPath :=
  tmpRoot ++ [tmpZipName target o.rand2]

/-- Removal of a path, mirroring safe_unlink, whose missing-file and other
errors are swallowed (the embedding lets the unlink succeed; a file that is
absent stays absent). -/
def fsRemove (fs : ZipFs) (p : FPath) : ZipFs :=
  fun q => if q = p then false else fs q

/-- Creation of a file at a path. -/
def fsAdd (fs : ZipFs) (p : FPath) : ZipFs :=
  fun q => if q = p then true else fs q

/-- Embedding of create_temp_zip_path: try a named temporary in the target
directory, fall back to the temp root, and propagate the exception when
both fail (in which case no file was created). -/
def createTempZipPath (tmpRoot target : FPath) (o : ZipOracle) (fs : ZipFs) :
    Option FPath × ZipFs :=
  if o.tmpDirFail then
    if o.tmpRootFail then (none, fs)
    else (some (tmpInTmpRoot tmpRoot target o), fsAdd fs (tmpInTmpRoot tmpRoot target o))
  else (some (tmpInTargetDir target o), fsAdd fs (tmpInTargetDir target o))

/-- Body of write_zip after the temporary exists: write the archive, make
the target directory, rename; on a cross-device error remove any stale
partial, copy to the partial, and rename that into place.  The boolean in
the result records whether the partial variable was assigned, which is
what the finally block tests. -/
def writeZipBody (target : FPath) (o : ZipOracle) (tmp : FPath) (fs : ZipFs) :
    Except Unit Unit × ZipFs × Bool :=
  if o.zipFail then (.error (), fs, false)
  else if o.mkdirFail then (.error (), fs, false)
  else if o.renameFail then (.error (), fs, false)
  else if !o.renameExdev then (.ok (), fsAdd (fsRemove fs tmp) target, false)
  else
    let pp := partialPath target
    let fs1 := fsRemove fs pp
    if o.copyFail then
      (.error (), (if o.copyPartialCreated then fsAdd fs1 pp else fs1), true)
    else
      let fs2 := fsAdd fs1 pp
      if o.rename2Fail then (.error (), fs2, true)
      else (.ok (), fsAdd (fsRemove fs2 pp) target, true)

/-- Embedding of write_zip: create the temporary, run the body, and run the
finally block, which unlinks the temporary and, when it was assigned, the
partial path, ignoring missing files. -/
def writeZip (tmpRoot target : FPath) (o : ZipOracle) (fs : ZipFs) :
    Except Unit Unit × ZipFs :=
  match createTempZipPath tmpRoot target o fs with
  | (none, fs1) => (.error (), fs1)
  | (some tmp, fs1) =>
    let b := writeZipBody target o tmp fs1
    let fs3 := fsRemove b.2.1 tmp
    (b.1, if b.2.2 then fsRemove fs3 (partialPath target) else fs3)

/-!  Output path resolution (virtual_relpath, resolve_output_file).  The
function short_hash is the first eight hex characters of a SHA-1 digest;
the development is parameterised by the hash function, and the flatten
safety theorem assumes exactly the collision freedom the specification
assumes of those eight characters. -/

/-- Embedding of virtual_relpath: keep the whole relative path when nesting
is replicated, otherwise keep the top component and the basename, or just
the basename for a single-component path. -/
def virtualRelpath (relPath : FPath) (replicateNesting : Bool) : FPath :=
  if replicateNesting then relPath
  else if 1 < relPath.length then [relPath.head!, pathName relPath]
  else [pathName relPath]

/-- Renamed basename used by the flatten resolver when the plain basename
is claimed by a different source path: stem, two underscores, the short
hash of the full relative path string, and the suffix. -/
def flattenRenamed (shortHash : Str → Str) (relFile : FPath) : Str :=
  nameStem (pathName relFile) ++ lit "__" ++ shortHash (pathStr relFile)
    ++ nameSuffix (pathName relFile)

/-- Lookup in the flatten name map, an association list from basenames to
relative path strings. -/
def fmapGet (m : List (Str × Str)) (k : Str) : Option Str :=
  (m.find? (fun e => e.1 = k)).map Prod.snd

/-- Embedding of dict.setdefault: add the binding only when the key is
absent. -/
def fmapSetdefault (m : List (Str × Str)) (k v : Str) : List (Str × Str) :=
  match fmapGet m k with
  | some _ => m
  | none => m ++ [(k, v)]

/-- Embedding of resolve_output_file.  Returns the physical and virtual
targets and the updated flatten name map.  Without flattening both targets
are the virtual path; with flattening the physical target lives directly
under the output root, renamed when the basename was already claimed by a
different source path. -/
def resolveOutputFile (shortHash : Str → Str) (outputRoot : FPath) (relFile : FPath)
    (replicateNesting flattenEnabled : Bool) (fmap : List (Str × Str)) :
    (FPath × FPath) × List (Str × Str) :=
  let virtualTarget := outputRoot ++ virtualRelpath relFile replicateNesting
  if !flattenEnabled then ((virtualTarget, virtualTarget), fmap)
  else
    let baseName :=
      match fmapGet fmap (pathName relFile) with
      | some recorded =>
        if recorded ≠ pathStr relFile then flattenRenamed shortHash relFile
        else pathName relFile
      | none => pathName relFile
    ((outputRoot ++ [baseName], virtualTarget),
      fmapSetdefault fmap baseName (pathStr relFile))

/-- Basename chosen by one flatten resolution; the physical path returned
by resolve_output_file with flattening on is the output root extended by
exactly this component. -/
def flattenBase (shortHash : Str → Str) (fmap : List (Str × Str)) (relFile : FPath) : Str :=
  match fmapGet fmap (pathName relFile) with
  | some recorded =>
    if recorded ≠ pathStr relFile then flattenRenamed shortHash relFile
    else pathName relFile
  | none => pathName relFile

/-- Resolution of a whole sequence of relative file paths through one
flatten name map with flattening enabled, returning the physical targets
in order together with the final map.  This is the per-scan situation of
claim C4. -/
def flattenSeq (shortHash : Str → Str) (outputRoot : FPath) (replicateNesting : Bool)
    (fmap : List (Str × Str)) : List FPath → List FPath × List (Str × Str)
  | [] => ([], fmap)
  | p :: ps =>
    let ((phys, _), m1) := resolveOutputFile shortHash outputRoot p replicateNesting true fmap
    let (rest, m2) := flattenSeq shortHash outputRoot replicateNesting m1 ps
    (phys :: rest, m2)

/-!  Source-side filesystem trees and the walker. -/

/-- A source directory tree: files with stat size and mtime, and named
subdirectories. -/
inductive FsTree where
  | node : List (Str × Nat × Nat) → List (Str × FsTree) → FsTree

/-- Navigation to a subdirectory along a component path. -/
def subtree : FsTree → FPath → Option FsTree
  | t, [] => some t
  | .node _ dirs, c :: rest =>
    match dirs.find? (fun d => d.1 = c) with
    | some d => subtree d.2 rest
    | none => none

/-- Number of direct image files of a directory, under the extension
filter of ext_in_list. -/
def countImages (exts : List Str) (files : List (Str × Nat × Nat)) : Nat :=
  (files.filter (fun f => extInList f.1 exts)).length

mutual
/-- Total number of image files in a whole subtree. -/
def totalImages (exts : List Str) : FsTree → Nat
  | .node files dirs => countImages exts files + totalImagesList exts dirs
/-- Total number of image files over a list of subdirectories. -/
def totalImagesList (exts : List Str) : List (Str × FsTree) → Nat
  | [] => 0
  | d :: rest => totalImages exts d.2 + totalImagesList exts rest
end

/-- Rollup data for one walked directory: direct image count, subtree image
count, and leafness. -/
structure DirMeta where
  direct_images : Nat
  total_images : Nat
  is_leaf : Bool
deriving DecidableEq

mutual
/-- Rollups for every directory of a tree, keyed by the walk-relative path
and carrying the subtree itself.  The bottom-up walk of discover_galleries
assigns every directory its direct image count, its subtree image count
and its leafness; the resulting keys are sorted afterwards, so the
collection order here is irrelevant. -/
def dirMetas (exts : List Str) (rel : FPath) : FsTree → List (FPath × DirMeta × FsTree)
  | .node files dirs =>
    (rel, ⟨countImages exts files, totalImages exts (.node files dirs), dirs.isEmpty⟩,
      FsTree.node files dirs) :: dirMetasList exts rel dirs
/-- Rollups over a list of subdirectories. -/
def dirMetasList (exts : List Str) (rel : FPath) : List (Str × FsTree) →
    List (FPath × DirMeta × FsTree)
  | [] => []
  | d :: rest => dirMetas exts (rel ++ [d.1]) d.2 ++ dirMetasList exts rel rest
end

/-- Name-wise sort of directory entries, as the walker sorts dirs and
files in place. -/
def sortEntries (l : List (Str × α)) : List (Str × α) :=
  sortBy (fun a b => strLe a.1 b.1) l

mutual
/-- Recursive image gathering in walk order: the sorted image files of the
current directory, then the subdirectories in sorted name order; paths are
relative to the gallery root.  The per-child results are computed first
and sorted by child name afterwards, which yields the same order as
sorting before recursing. -/
def gatherImagesRec (exts : List Str) (rel : FPath) : FsTree → List (FPath × Nat × Nat)
  | .node files dirs =>
    ((sortEntries files).filter (fun f => extInList f.1 exts)).map
      (fun f => (rel ++ [f.1], f.2))
      ++ (sortEntries (gatherImagesRecChildren exts rel dirs)).flatMap (fun d => d.2)
/-- Recursive image gathering over a list of subdirectories, keyed by the
child name for the subsequent sort. -/
def gatherImagesRecChildren (exts : List Str) (rel : FPath) : List (Str × FsTree) →
    List (Str × List (FPath × Nat × Nat))
  | [] => []
  | d :: rest =>
    (d.1, gatherImagesRec exts (rel ++ [d.1]) d.2) :: gatherImagesRecChildren exts rel rest
end

/-- Embedding of gather_gallery_files: recursive walk order or the sorted
direct children, filtered by image extension. -/
def gatherGalleryFiles (exts : List Str) (recursive : Bool) (t : FsTree) :
    List (FPath × Nat × Nat) :=
  if recursive then gatherImagesRec exts [] t
  else
    match t with
    | .node files _ =>
      ((sortEntries files).filter (fun f => extInList f.1 exts)).map (fun f => ([f.1], f.2))

/-- Sidecar extensions copied next to gallery images. -/
def sidecarExts : List Str := [lit ".txt", lit ".json", lit ".xml", lit ".nfo"]

/-- Sidecar test: the lowercased suffix, dot included, must be a sidecar
extension. -/
def isSidecar (name : Str) : Bool := sidecarExts.contains (strLower (nameSuffix name))

mutual
/-- Recursive sidecar gathering in walk order. -/
def gatherSidecarsRec (rel : FPath) : FsTree → List (FPath × Nat × Nat)
  | .node files dirs =>
    ((sortEntries files).filter (fun f => isSidecar f.1)).map (fun f => (rel ++ [f.1], f.2))
      ++ (sortEntries (gatherSidecarsRecChildren rel dirs)).flatMap (fun d => d.2)
/-- Recursive sidecar gathering over a list of subdirectories. -/
def gatherSidecarsRecChildren (rel : FPath) : List (Str × FsTree) →
    List (Str × List (FPath × Nat × Nat))
  | [] => []
  | d :: rest =>
    (d.1, gatherSidecarsRec (rel ++ [d.1]) d.2) :: gatherSidecarsRecChildren rel rest
end

/-- Embedding of gather_sidecars. -/
def gatherSidecars (recursive : Bool) (t : FsTree) : List (FPath × Nat × Nat) :=
  if recursive then gatherSidecarsRec [] t
  else
    match t with
    | .node files _ =>
      ((sortEntries files).filter (fun f => isSidecar f.1)).map (fun f => ([f.1], f.2))

mutual
/-- Collection of every file of a tree with its walk-relative path. -/
def allFiles (rel : FPath) : FsTree → List (FPath × Nat × Nat)
  | .node files dirs =>
    files.map (fun f => (rel ++ [f.1], f.2)) ++ allFilesList rel dirs
/-- Collection of every file over a list of subdirectories. -/
def allFilesList (rel : FPath) : List (Str × FsTree) → List (FPath × Nat × Nat)
  | [] => []
  | d :: rest => allFiles (rel ++ [d.1]) d.2 ++ allFilesList rel rest
end

/-- Embedding of iter_archives: every file of the subtree whose extension
is an archive extension, sorted by the full path string; absBase is the
absolute base path giving the sort key prefix. -/
def iterArchives (exts : List Str) (absBase : FPath) (t : FsTree) :
    List (FPath × Nat × Nat) :=
  sortBy (fun a b => strLe (pathStr (absBase ++ a.1)) (pathStr (absBase ++ b.1)))
    ((allFiles [] t).filter (fun f => extInList (pathName f.1) exts))

/-!  Settings, environment, record store, output filesystem. -/

/-- Scan settings snapshot; the fields the scan engine reads. -/
structure ScanSettings where
  zip_galleries : Bool
  update_gallery_zips : Bool
  replicate_nesting : Bool
  leaf_only : Bool
  consider_images_in_subfolders : Bool
  output_mode : Str
  copy_sidecars : Bool
  lanraragi_flatten : Bool
  archive_extension_for_galleries : Str
  duplicates_enabled : Bool
  min_images_to_be_gallery : Nat
  archive_extensions : List Str
  image_extensions : List Str

/-- Whitespace strip on both ends, as str.strip with no argument. -/
def strStrip (s : Str) : Str :=
  ((s.dropWhile Char.isWhitespace).reverse.dropWhile Char.isWhitespace).reverse

/-- The set of output modes: the output mode string split on plus signs,
each part stripped. -/
def outputModes (s : ScanSettings) : List Str :=
  (s.output_mode.splitOn '+').map strStrip

/-- An enabled source row: relative path under the data root and scan
mode.  The scan only queries enabled sources, so the model receives the
enabled rows. -/
structure Source where
  path : FPath
  scan_mode : Str
deriving DecidableEq

/-- Environment of one scan: configured roots, availability of the
duplicates directory, the short hash function, the clock, and the
environment-determined stat values of written zips and directories. -/
structure ScanEnv where
  dataRoot : FPath
  outputRoot : FPath
  duplicatesRoot : FPath
  duplicatesAvailable : Bool
  shortHash : Str → Str
  now : Nat
  zipSize : Nat
  dirStatSize : Nat

/-- Persistent archive record; the type column is called rtype because
type is reserved in Lean.  The signature field holds the parsed
signature_json, none standing for a NULL column. -/
structure ArchiveRecord where
  source_path : FPath
  rtype : Str
  signature : Option Sig
  virtual_target_path : Option FPath
  created_at : Nat
  updated_at : Nat
  last_seen_at : Nat
deriving DecidableEq

/-- The record store, keyed by physical target path. -/
abbrev RecordStore := FPath → Option ArchiveRecord

/-- Embedding of upsert_record: update every content field and both seen
stamps on an existing row, create the row with all three stamps otherwise. -/
def upsertRecord (rs : RecordStore) (target source : FPath) (ty : Str) (sig : Sig)
    (virt : Option FPath) (now : Nat) : RecordStore :=
  fun q =>
    if q = target then
      match rs target with
      | some r =>
        some { r with
          source_path := source
          rtype := ty
          signature := some sig
          virtual_target_path := virt
          last_seen_at := now
          updated_at := now }
      | none => some ⟨source, ty, some sig, virt, now, now, now⟩
    else rs q

/-- Embedding of touch_record: bump last_seen_at of an existing row, do
nothing when the row is absent. -/
def touchRecord (rs : RecordStore) (target : FPath) (now : Nat) : RecordStore :=
  fun q =>
    if q = target then (rs target).map (fun r => { r with last_seen_at := now })
    else rs q

/-- Entries of the output-side filesystem. -/
inductive FsEntry where
  | file (size mtime : Nat)
  | dir
deriving DecidableEq

/-- The output filesystem fragment the scan writes, as a partial map. -/
abbrev OutFs := FPath → Option FsEntry

/-- Existence test. -/
def fsExists (fs : OutFs) (p : FPath) : Bool := (fs p).isSome

/-- Stat size of an existing path; directories report the
environment-determined directory size. -/
def statSize (env : ScanEnv) (fs : OutFs) (p : FPath) : Nat :=
  match fs p with
  | some (.file s _) => s
  | some .dir => env.dirStatSize
  | none => 0

/-- Point update of the output filesystem. -/
def fsSet (fs : OutFs) (p : FPath) (e : FsEntry) : OutFs :=
  fun q => if q = p then some e else fs q

/-- All nonempty prefixes of a path, the chain mkdir with parents
creates. -/
def ancestorsOf (p : FPath) : List FPath :=
  (List.range p.length).map (fun k => p.take (k + 1))

/-- Embedding of mkdir with parents and exist_ok: create every missing
directory along the chain, leave existing entries alone. -/
def mkdirP (fs : OutFs) (p : FPath) : OutFs :=
  (ancestorsOf p).foldl
    (fun f q => match f q with | some _ => f | none => fsSet f q .dir) fs

/-- Effect of copy_file on the output filesystem: create the parent chain,
then the destination file carrying the stat data of the source, which both
the hardlink and the metadata-preserving copy keep. -/
def copyFileFs (fs : OutFs) (dest : FPath) (size mtime : Nat) : OutFs :=
  fsSet (mkdirP fs (pathParent dest)) dest (.file size mtime)

/-- Net effect of a successful write_zip on the output filesystem: the
parent chain and the finished zip, whose stat data the environment
determines. -/
def writeZipFs (env : ScanEnv) (fs : OutFs) (target : FPath) : OutFs :=
  fsSet (mkdirP fs (pathParent target)) target (.file env.zipSize env.now)

/-- Mutable state threaded through one scan. -/
structure ScanState where
  fs : OutFs
  records : RecordStore

/-- The empty output tree and empty record store. -/
def emptyScanState : ScanState := ⟨fun _ => none, fun _ => none⟩

/-!  Plan actions, summary counters, and the fuzzy ratio. -/

/-- String constants of the engine. -/
def sCOPY : Str := lit "COPY"

def sSKIP : Str := lit "SKIP"

def sZIP : Str := lit "ZIP"

def sUPDATE : Str := lit "UPDATE"

def sFOLDERCOPY : Str := lit "FOLDERCOPY"

def sCOPY_DUPLICATE : Str := lit "COPY_DUPLICATE"

def sRENAME : Str := lit "RENAME"

def sENSURE_DIR : Str := lit "ENSURE_DIR"

def rcUnchanged : Str := lit "SKIP_EXISTING_UNCHANGED"

def rcSameSize : Str := lit "SKIP_DUPLICATE_SAME_SIZE"

def rcSameSignature : Str := lit "SKIP_DUPLICATE_SAME_SIGNATURE"

def rcConflict : Str := lit "SKIP_OUTPUT_CONFLICT"

def rcNoImages : Str := lit "SKIP_NO_IMAGES"

def rcBelowMin : Str := lit "SKIP_BELOW_MIN_IMAGES"

def aCopyArchive : Str := lit "copy_archive"

def aZipGallery : Str := lit "zip_gallery"

def aOverwriteZip : Str := lit "overwrite_zip"

def aFoldercopyGallery : Str := lit "foldercopy_gallery"

def aEnsureOutputDir : Str := lit "ensure_output_dir"

def aScanGallery : Str := lit "scan_gallery"

def tArchive : Str := lit "archive"

def tGallery : Str := lit "gallery"

def tContainer : Str := lit "container"

def tGalleryzip : Str := lit "galleryzip"

def tFoldercopy : Str := lit "foldercopy"

def mFoldersOnly : Str := lit "folders_only"

def mArchivesOnly : Str := lit "archives_only"

def mZip : Str := lit "zip"

def mFoldercopy : Str := lit "foldercopy"

/-- Total image bytes of a signature, the dict lookup the gallery branch
uses for the bytes field; absent on archive signatures. -/
def sigTotalBytes : Sig → Option Nat
  | .archive _ _ => none
  | .gallery _ b _ => some b

/-- Decimal rendering of a natural number. -/
def natStr (n : Nat) : Str := Nat.toDigits 10 n

/-- Indel edit distance, the metric underlying the fuzz ratio. -/
def indelDist : Str → Str → Nat
  | [], ys => ys.length
  | x :: xs, [] => (x :: xs).length
  | x :: xs, y :: ys =>
    if x = y then indelDist xs ys
    else 1 + min (indelDist xs (y :: ys)) (indelDist (x :: xs) ys)
termination_by xs ys => xs.length + ys.length

/-- The fuzz ratio as an exact rational: one hundred times the normalized
indel similarity, one hundred for two empty strings. -/
def fuzzRatio (a b : Str) : ℚ :=
  if a.length + b.length = 0 then 100
  else 100 * (1 - (indelDist a b : ℚ) / ((a.length : ℚ) + (b.length : ℚ)))

/-- A planned action; ptype stands for the type field, and paths stay in
component form. -/
structure PlanAction where
  action : Str
  ptype : Str
  source_path : FPath
  target_path : Option FPath
  virtual_target : Option FPath
  relative_source : Option FPath
  reason : Option Str
  reason_code : Option Str
  decision : Str
  signature : Option Sig
  similarity : Option ℚ
  bytes : Option Nat
deriving DecidableEq

/-- Scan summary counters. -/
structure ScanSummary where
  archives_to_copy : Nat
  galleries_to_zip : Nat
  skipped_existing : Nat
  duplicates : Nat
  overwrites : Nat
  planned : Nat
  skipped : Nat
  reason_counts : List (Str × Nat)
deriving DecidableEq

/-- The zero summary. -/
def emptySummary : ScanSummary := ⟨0, 0, 0, 0, 0, 0, 0, []⟩

/-- Increment of a reason counter in the insertion-ordered count list. -/
def bumpReason (rc : List (Str × Nat)) (k : Str) : List (Str × Nat) :=
  match rc.find? (fun e => e.1 = k) with
  | some _ => rc.map (fun e => if e.1 = k then (e.1, e.2 + 1) else e)
  | none => rc ++ [(k, 1)]

/-- Pythonic or on optional strings: an empty or absent first operand
falls through to the second. -/
def strOrElse (a b : Option Str) : Option Str :=
  match a with
  | some s => if s.isEmpty then b else some s
  | none => b

/-- Embedding of append_reason: a missing or empty reason is ignored,
otherwise its counter is bumped and the three same-content reasons also
bump skipped_existing. -/
def appendReason (sum : ScanSummary) (reason : Option Str) : ScanSummary :=
  match reason with
  | none => sum
  | some r =>
    if r.isEmpty then sum
    else
      let sum1 := { sum with reason_counts := bumpReason sum.reason_counts r }
      if r = rcUnchanged ∨ r = rcSameSignature ∨ r = rcSameSize then
        { sum1 with skipped_existing := sum1.skipped_existing + 1 }
      else sum1

/-- Embedding of register_action: update the summary counters and append
the action to the stream. -/
def registerAction (a : PlanAction) (sum : ScanSummary) (acts : List PlanAction) :
    ScanSummary × List PlanAction :=
  let s1 := appendReason sum (strOrElse a.reason_code a.reason)
  let s2 :=
    if a.decision = sSKIP then { s1 with skipped := s1.skipped + 1 }
    else { s1 with planned := s1.planned + 1 }
  let s3 :=
    if a.ptype = tArchive ∧ a.decision ≠ sSKIP ∧ a.decision ≠ sENSURE_DIR then
      { s2 with archives_to_copy := s2.archives_to_copy + 1 }
    else s2
  let s4 :=
    if a.ptype = tGallery ∧ (a.action = aZipGallery ∨ a.action = aOverwriteZip)
        ∧ (a.decision = sZIP ∨ a.decision = sUPDATE) then
      { s3 with galleries_to_zip := s3.galleries_to_zip + 1 }
    else s3
  let s5 :=
    if a.decision = sRENAME ∨ a.decision = sCOPY_DUPLICATE then
      { s4 with duplicates := s4.duplicates + 1 }
    else s4
  let s6 :=
    if a.decision = sUPDATE then { s5 with overwrites := s5.overwrites + 1 } else s5
  (s6, acts ++ [a])

/-!  Gallery discovery. -/

/-- Transient gallery candidate: absolute path, data-root-relative
directory, walk-relative directory under the source base, gathered image
files, signature, leafness. -/
structure GalleryData where
  path : FPath
  relDir : FPath
  relw : FPath
  images : List (FPath × Nat × Nat)
  signature : Sig
  is_leaf : Bool
deriving DecidableEq

/-- Embedding of the qualification chain of discover_galleries: enough
direct images, or a populated leaf in leaf-only mode, or enough subtree
images when subfolders are considered and leaf-only is off. -/
def qualifiesDir (s : ScanSettings) (m : DirMeta) : Bool :=
  if s.min_images_to_be_gallery ≤ m.direct_images then true
  else if s.leaf_only && m.is_leaf && decide (0 < m.direct_images) then true
  else if !s.leaf_only && s.consider_images_in_subfolders
      && decide (s.min_images_to_be_gallery ≤ m.total_images) then true
  else false

/-- Skip reason of a non-qualifying directory: no images on an empty leaf,
below minimum when some but too few direct images exist. -/
def skipReasonFor (s : ScanSettings) (m : DirMeta) : Option Str :=
  if m.direct_images = 0 ∧ m.is_leaf then some rcNoImages
  else if 0 < m.direct_images ∧ m.direct_images < s.min_images_to_be_gallery then
    some rcBelowMin
  else none

/-- Classifier skip action for a non-qualifying directory. -/
def mkClassifierSkip (absBase relBase : FPath) (relw : FPath) (reason : Str) : PlanAction :=
  { action := aScanGallery, ptype := tGallery, source_path := absBase ++ relw,
    target_path := none, virtual_target := none, relative_source := some (relBase ++ relw),
    reason := some reason, reason_code := some reason, decision := sSKIP,
    signature := none, similarity := none, bytes := none }

/-- Chain of walk-relative parents of a directory, from the immediate
parent down to the source base, the walk the container search performs. -/
def relParentsChain (relw : FPath) : List FPath :=
  ((List.range relw.length).map (fun k => relw.take k)).reverse

/-- Embedding of discover_galleries: rollups for every directory sorted by
absolute path string, qualification and skip classification per directory,
image gathering and signatures for qualifying directories, and the
container directories, which are ancestors of galleries without direct
images, deduplicated and sorted. -/
def discoverGalleries (s : ScanSettings) (absBase relBase : FPath) (t : FsTree) :
    List GalleryData × List PlanAction × List FPath :=
  let metas := sortBy (fun a b => strLe (pathStr (absBase ++ a.1)) (pathStr (absBase ++ b.1)))
    (dirMetas s.image_extensions [] t)
  let galleries := metas.filterMap (fun e =>
    if qualifiesDir s e.2.1 then
      let images := gatherGalleryFiles s.image_extensions s.consider_images_in_subfolders e.2.2
      some ⟨absBase ++ e.1, relBase ++ e.1, e.1, images, gallerySignatureOf images, e.2.1.is_leaf⟩
    else none)
  let skips := metas.filterMap (fun e =>
    if qualifiesDir s e.2.1 then none
    else (skipReasonFor s e.2.1).map (mkClassifierSkip absBase relBase e.1))
  let containers := ((galleries.map (fun g => g.relw)).flatMap (fun relw =>
    (relParentsChain relw).filter (fun par =>
      match (metas.find? (fun e => e.1 = par)).map (fun e => e.2.1) with
      | some m => m.direct_images = 0
      | none => false))).eraseDups
  (galleries, skips,
    sortBy (fun a b => strLe (pathStr (absBase ++ a)) (pathStr (absBase ++ b))) containers)

/-!  Scan items: the source-derived work list of one scan.  The decisions
of the planner depend on the mutable state, but the identity of the
processed items, their resolved targets included, is a pure function of
the sources, settings and source tree, because the flatten name map
evolves deterministically along the item sequence.  The itemization below
mirrors the loop structure of perform_scan; runScanAux then folds the
per-item planning and execution over the state. -/

/-- One unit of planner work, in emission order. -/
inductive ScanItem where
  | archiveIt (src rel : FPath) (size mtime : Nat) (physical virtualT : FPath)
  | skipIt (a : PlanAction)
  | ensureIt (srcDir relDir target : FPath)
  | zipIt (g : GalleryData) (target virtualT : FPath)
  | folderIt (g : GalleryData) (sidecars : List (FPath × Nat × Nat)) (target : FPath)
deriving DecidableEq

/-- Prefix test on component paths, embedding is_relative_to. -/
def isRelativeToB (p base : FPath) : Bool := base.isPrefixOf p

/-- Whether galleries are processed at all: zipping enabled or foldercopy
among the output modes. -/
def processGalleries (s : ScanSettings) : Bool :=
  s.zip_galleries || (outputModes s).contains mFoldercopy

/-- Skip action emitted for a qualifying gallery whose image list is
empty. -/
def galleryZeroImagesSkip (g : GalleryData) : PlanAction :=
  { action := aScanGallery, ptype := tGallery, source_path := g.path,
    target_path := none, virtual_target := none, relative_source := some g.relDir,
    reason := some rcNoImages, reason_code := some rcNoImages, decision := sSKIP,
    signature := none, similarity := none, bytes := none }

/-- Itemization of the archive loop of one source: walker-ordered archive
files, exclusion filtering, and target resolution through the flatten name
map. -/
def archiveItemsAux (env : ScanEnv) (s : ScanSettings) (srcPath absBase : FPath)
    (exclusions : List FPath) : List (FPath × Nat × Nat) → List (Str × Str) →
    List ScanItem × List (Str × Str)
  | [], m => ([], m)
  | (relw, sz, mt) :: rest, m =>
    let rel := srcPath ++ relw
    if exclusions.any (fun e => isRelativeToB rel e) then
      archiveItemsAux env s srcPath absBase exclusions rest m
    else
      let r := resolveOutputFile env.shortHash env.outputRoot rel
        s.replicate_nesting s.lanraragi_flatten m
      let (items, m2) := archiveItemsAux env s srcPath absBase exclusions rest r.2
      (.archiveIt (absBase ++ relw) rel sz mt r.1.1 r.1.2 :: items, m2)

/-- Sidecars gathered for one gallery, empty when sidecar copying is
off. -/
def gallerySidecars (s : ScanSettings) (t : FsTree) (g : GalleryData) :
    List (FPath × Nat × Nat) :=
  if s.copy_sidecars then
    gatherSidecars s.consider_images_in_subfolders ((subtree t g.relw).getD (.node [] []))
  else []

/-- Zip mode items of one gallery, resolving the zip target through the
flatten name map. -/
def galleryZipItems (env : ScanEnv) (s : ScanSettings) (g : GalleryData)
    (m : List (Str × Str)) : List ScanItem × List (Str × Str) :=
  if (outputModes s).contains mZip then
    ([ScanItem.zipIt g
        (resolveOutputFile env.shortHash env.outputRoot
          (pathParent g.relDir
            ++ [pathName g.relDir ++ '.' :: lstripDots s.archive_extension_for_galleries])
          s.replicate_nesting s.lanraragi_flatten m).1.1
        (resolveOutputFile env.shortHash env.outputRoot
          (pathParent g.relDir
            ++ [pathName g.relDir ++ '.' :: lstripDots s.archive_extension_for_galleries])
          s.replicate_nesting s.lanraragi_flatten m).1.2],
      (resolveOutputFile env.shortHash env.outputRoot
        (pathParent g.relDir
          ++ [pathName g.relDir ++ '.' :: lstripDots s.archive_extension_for_galleries])
        s.replicate_nesting s.lanraragi_flatten m).2)
  else ([], m)

/-- Foldercopy mode items of one gallery. -/
def galleryFolderItems (env : ScanEnv) (s : ScanSettings) (t : FsTree) (g : GalleryData) :
    List ScanItem :=
  if (outputModes s).contains mFoldercopy then
    [ScanItem.folderIt g (gallerySidecars s t g)
      (env.outputRoot ++ virtualRelpath g.relDir s.replicate_nesting)]
  else []

/-- Items of one non-excluded gallery: the zero-image skip, or the zip
items followed by the foldercopy items. -/
def galleryOneItems (env : ScanEnv) (s : ScanSettings) (t : FsTree) (g : GalleryData)
    (m : List (Str × Str)) : List ScanItem × List (Str × Str) :=
  if g.images.isEmpty then ([.skipIt (galleryZeroImagesSkip g)], m)
  else
    ((galleryZipItems env s g m).1 ++ galleryFolderItems env s t g,
      (galleryZipItems env s g m).2)

/-- Itemization of the gallery loop of one source: exclusion filtering,
then the per-gallery items in order, threading the flatten name map. -/
def galleryItemsAux (env : ScanEnv) (s : ScanSettings) (srcPath : FPath) (t : FsTree) :
    List (FPath) → List GalleryData → List (Str × Str) → List ScanItem × List (Str × Str)
  | _, [], m => ([], m)
  | exclusions, g :: rest, m =>
    if exclusions.any (fun e => isRelativeToB g.relDir e) then
      galleryItemsAux env s srcPath t exclusions rest m
    else
      ((galleryOneItems env s t g m).1
          ++ (galleryItemsAux env s srcPath t exclusions rest (galleryOneItems env s t g m).2).1,
        (galleryItemsAux env s srcPath t exclusions rest (galleryOneItems env s t g m).2).2)

/-- Itemization of one source: archives unless the scan mode is folders
only, then classifier skips, container directories, and the gallery
items, unless galleries are not processed or the scan mode is archives
only. -/
def sourceArchPart (env : ScanEnv) (s : ScanSettings) (exclusions : List FPath)
    (src : Source) (t : FsTree) (m : List (Str × Str)) :
    List ScanItem × List (Str × Str) :=
  if src.scan_mode ≠ mFoldersOnly then
    archiveItemsAux env s src.path (env.dataRoot ++ src.path) exclusions
      (iterArchives s.archive_extensions (env.dataRoot ++ src.path) t) m
  else ([], m)

def sourceEnsureItems (env : ScanEnv) (s : ScanSettings) (src : Source)
    (t : FsTree) : List ScanItem :=
  if (s.replicate_nesting && !s.lanraragi_flatten)
      || (outputModes s).contains mFoldercopy then
    (discoverGalleries s (env.dataRoot ++ src.path) src.path t).2.2.map (fun relw =>
      ScanItem.ensureIt ((env.dataRoot ++ src.path) ++ relw) (src.path ++ relw)
        (env.outputRoot ++ virtualRelpath (src.path ++ relw) s.replicate_nesting))
  else []

def sourceGalPart (env : ScanEnv) (s : ScanSettings) (exclusions : List FPath)
    (src : Source) (t : FsTree) (m1 : List (Str × Str)) :
    List ScanItem × List (Str × Str) :=
  galleryItemsAux env s src.path t exclusions
    (sortBy (fun a b => strLe (pathStr a.relDir) (pathStr b.relDir))
      (discoverGalleries s (env.dataRoot ++ src.path) src.path t).1) m1

def sourceItems (env : ScanEnv) (s : ScanSettings) (exclusions : List FPath)
    (src : Source) (t : FsTree) (m : List (Str × Str)) :
    List ScanItem × List (Str × Str) :=
  let ap := sourceArchPart env s exclusions src t m
  if !processGalleries s || src.scan_mode = mArchivesOnly then ap
  else
    let skipItems :=
      (discoverGalleries s (env.dataRoot ++ src.path) src.path t).2.1.map ScanItem.skipIt
    let gp := sourceGalPart env s exclusions src t ap.2
    (ap.1 ++ skipItems ++ sourceEnsureItems env s src t ++ gp.1, gp.2)

/-- Itemization over the enabled sources sorted by path, skipping sources
whose base path is missing; the flatten name map is threaded through the
whole scan. -/
def scanItemsAux (env : ScanEnv) (s : ScanSettings) (exclusions : List FPath)
    (tree : FsTree) : List Source → List (Str × Str) → List ScanItem
  | [], _ => []
  | src :: rest, m =>
    match subtree tree src.path with
    | none => scanItemsAux env s exclusions tree rest m
    | some t =>
      let r := sourceItems env s exclusions src t m
      r.1 ++ scanItemsAux env s exclusions tree rest r.2

/-- The full work list of one scan. -/
def scanItems (env : ScanEnv) (s : ScanSettings) (sources : List Source)
    (exclusions : List FPath) (tree : FsTree) : List ScanItem :=
  scanItemsAux env s exclusions tree
    (sortBy (fun a b => strLe (pathStr a.path) (pathStr b.path)) sources) []

/-!  Per-item planning and execution steps, mirroring the branches of
perform_scan. -/

/-- Signature match of a stored record against a fresh signature: the
record must exist, its signature_json must be non-null (and non-empty),
and the parsed dict must equal the fresh signature. -/
def recSigMatches (r : Option ArchiveRecord) (sig : Sig) : Bool :=
  match r with
  | some rec =>
    match rec.signature with
    | some s => decide (s = sig)
    | none => false
  | none => false

/-- Duplicate rename target: the sibling whose name is the stem, the
marker, the unix timestamp and the suffix. -/
def dupRenameTarget (target : FPath) (now : Nat) : FPath :=
  pathParent target ++
    [nameStem (pathName target) ++ lit "_DUP_" ++ natStr now ++ nameSuffix (pathName target)]

/-- Archive planning and execution step, embedding the archive branch of
perform_scan: copy when the physical target is missing, skip unchanged on
a record signature match, skip on equal stat size, otherwise route the
duplicate to the duplicates tree or rename it, copying and upserting when
not in dry-run mode and touching the record on content-confirming
skips. -/
def archStep (env : ScanEnv) (s : ScanSettings) (dry : Bool) (st : ScanState)
    (src rel : FPath) (size mtime : Nat) (physical virtualT : FPath) :
    PlanAction × ScanState :=
  let sig := Sig.archive size mtime
  let rec? := st.records physical
  let base : PlanAction :=
    { action := aCopyArchive, ptype := tArchive, source_path := src,
      target_path := some physical, virtual_target := some virtualT,
      relative_source := some rel, reason := none, reason_code := none,
      decision := sCOPY, signature := some sig, similarity := some 1,
      bytes := some size }
  if fsExists st.fs physical then
    if recSigMatches rec? sig then
      ({ base with
          decision := sSKIP
          reason := some rcUnchanged
          reason_code := some rcUnchanged },
        if dry then st else { st with records := touchRecord st.records physical env.now })
    else if statSize env st.fs physical = size then
      ({ base with
          decision := sSKIP
          reason := some rcSameSize
          reason_code := some rcSameSize },
        if dry then st else { st with records := touchRecord st.records physical env.now })
    else if s.duplicates_enabled && env.duplicatesAvailable then
      let alt := env.duplicatesRoot ++ rel
      ({ base with
          decision := sCOPY_DUPLICATE
          target_path := some alt
          reason := some rcConflict
          reason_code := some rcConflict },
        if dry then st else
          ⟨copyFileFs st.fs alt size mtime,
            upsertRecord st.records alt src tArchive sig (some virtualT) env.now⟩)
    else
      let alt := dupRenameTarget physical env.now
      ({ base with
          decision := sRENAME
          target_path := some alt
          reason := some rcConflict
          reason_code := some rcConflict },
        if dry then st else
          ⟨copyFileFs st.fs alt size mtime,
            upsertRecord st.records alt src tArchive sig (some virtualT) env.now⟩)
  else
    (base,
      if dry then st else
        ⟨copyFileFs st.fs physical size mtime,
          upsertRecord st.records physical src tArchive sig (some virtualT) env.now⟩)

/-- Gallery zip planning and execution step, embedding the zip mode branch
of perform_scan. -/
def zipStep (env : ScanEnv) (s : ScanSettings) (dry : Bool) (st : ScanState)
    (g : GalleryData) (target virtualT : FPath) : PlanAction × ScanState :=
  let ext := lstripDots s.archive_extension_for_galleries
  let rec? := st.records target
  let base : PlanAction :=
    { action := aZipGallery, ptype := tGallery, source_path := g.path,
      target_path := some target, virtual_target := some virtualT,
      relative_source := some g.relDir, reason := none, reason_code := none,
      decision := sZIP, signature := some g.signature,
      similarity := some (fuzzRatio (pathName g.path) (pathName g.relDir) / 100),
      bytes := sigTotalBytes g.signature }
  if fsExists st.fs target then
    if recSigMatches rec? g.signature then
      ({ base with
          decision := sSKIP
          reason := some rcSameSignature
          reason_code := some rcSameSignature },
        if dry then st else { st with records := touchRecord st.records target env.now })
    else if !s.update_gallery_zips then
      let alt :=
        if s.duplicates_enabled && env.duplicatesAvailable then
          env.duplicatesRoot ++ g.relDir ++ [pathName g.relDir ++ '.' :: ext]
        else dupRenameTarget target env.now
      let dec :=
        if s.duplicates_enabled && env.duplicatesAvailable then sCOPY_DUPLICATE
        else sRENAME
      ({ base with
          decision := dec
          target_path := some alt
          reason := some rcConflict
          reason_code := some rcConflict },
        if dry then st else
          ⟨writeZipFs env st.fs alt,
            upsertRecord st.records alt g.path tGalleryzip g.signature (some virtualT) env.now⟩)
    else
      ({ base with
          action := aOverwriteZip
          decision := sUPDATE },
        if dry then st else
          ⟨writeZipFs env st.fs target,
            upsertRecord st.records target g.path tGalleryzip g.signature (some virtualT) env.now⟩)
  else
    (base,
      if dry then st else
        ⟨writeZipFs env st.fs target,
          upsertRecord st.records target g.path tGalleryzip g.signature (some virtualT) env.now⟩)

/-- Folder copy effect on the output filesystem: create the target
directory, then copy every image and sidecar file preserving its relative
path. -/
def folderCopyFs (fs : OutFs) (targetDir : FPath) (files : List (FPath × Nat × Nat)) : OutFs :=
  files.foldl (fun f e => copyFileFs f (targetDir ++ e.1) e.2.1 e.2.2) (mkdirP fs targetDir)

/-- Foldercopy planning and execution step, embedding the foldercopy mode
branch of perform_scan. -/
def folderStep (env : ScanEnv) (s : ScanSettings) (dry : Bool) (st : ScanState)
    (g : GalleryData) (sidecars : List (FPath × Nat × Nat)) (targetDir : FPath) :
    PlanAction × ScanState :=
  let rec? := st.records targetDir
  let base : PlanAction :=
    { action := aFoldercopyGallery, ptype := tGallery, source_path := g.path,
      target_path := some targetDir, virtual_target := none,
      relative_source := some g.relDir, reason := none, reason_code := none,
      decision := sFOLDERCOPY, signature := some g.signature, similarity := none,
      bytes := sigTotalBytes g.signature }
  let sameSig := recSigMatches rec? g.signature
  if fsExists st.fs targetDir && sameSig then
    ({ base with
          decision := sSKIP
          reason := some rcSameSignature
          reason_code := some rcSameSignature },
      if dry then st else { st with records := touchRecord st.records targetDir env.now })
  else if fsExists st.fs targetDir && !s.update_gallery_zips then
    ({ base with
          decision := sSKIP
          reason := some rcConflict
          reason_code := some rcConflict }, st)
  else
    (base,
      if dry then st else
        ⟨folderCopyFs st.fs targetDir (g.images ++ sidecars),
          upsertRecord st.records targetDir g.path tFoldercopy g.signature
            (some targetDir) env.now⟩)

/-- Container directory step: an ensure action, with the directory chain
created when executing. -/
def ensureStep (dry : Bool) (st : ScanState) (srcDir relDir target : FPath) :
    PlanAction × ScanState :=
  ({ action := aEnsureOutputDir, ptype := tContainer, source_path := srcDir,
      target_path := some target, virtual_target := none,
      relative_source := some relDir, reason := none, reason_code := none,
      decision := sENSURE_DIR, signature := none, similarity := none, bytes := none },
    if dry then st else { st with fs := mkdirP st.fs target })

/-- Dispatch of one scan item to its planning step. -/
def stepItem (env : ScanEnv) (s : ScanSettings) (dry : Bool) (st : ScanState) :
    ScanItem → PlanAction × ScanState
  | .archiveIt src rel size mtime physical virtualT =>
    archStep env s dry st src rel size mtime physical virtualT
  | .skipIt a => (a, st)
  | .ensureIt srcDir relDir target => ensureStep dry st srcDir relDir target
  | .zipIt g target virtualT => zipStep env s dry st g target virtualT
  | .folderIt g sidecars target => folderStep env s dry st g sidecars target

/-- Result of one scan: the action stream, the summary, and the final
state. -/
structure ScanOutcome where
  actions : List PlanAction
  summary : ScanSummary
  state : ScanState

/-- The scan loop: step every item, register its action, thread the
state. -/
def runScanAux (env : ScanEnv) (s : ScanSettings) (dry : Bool) :
    List ScanItem → ScanState → ScanSummary → List PlanAction → ScanOutcome
  | [], st, sum, acts => ⟨acts, sum, st⟩
  | it :: rest, st, sum, acts =>
    let r := stepItem env s dry st it
    let reg := registerAction r.1 sum acts
    runScanAux env s dry rest r.2 reg.1 reg.2

/-- Embedding of perform_scan: derive the work list from the enabled
sources and fold the planner over it from the given state. -/
def performScan (env : ScanEnv) (s : ScanSettings) (sources : List Source)
    (exclusions : List FPath) (tree : FsTree) (dry : Bool) (st : ScanState) :
    ScanOutcome :=
  runScanAux env s dry (scanItems env s sources exclusions tree) st emptySummary []

/-!  Claim C3: records with raw signature_json.  The planner predicate
reads json.loads(record.signature_json) guarded only by truthiness of the
column; this level is embedded with the stored column as an optional raw
string and an executable parser of the canonical serialized signatures, so
that the exception behaviour of a corrupt column is visible. -/

/-- A record row as the planner predicate sees it: only the raw
signature_json column matters to the decision. -/
structure RawRecord where
  signature_json : Option Str
deriving DecidableEq

/-- Prefix stripping helper of the signature parser. -/
def stripLit : Str → Str → Option Str
  | [], s => some s
  | _, [] => none
  | c :: pre, d :: s => if c = d then stripLit pre s else none

/-- Numeric value of a digit string. -/
def digitsVal (ds : Str) : Nat :=
  ds.foldl (fun acc c => acc * 10 + (c.toNat - 48)) 0

/-- Parse of a nonempty run of digits. -/
def parseDigits (s : Str) : Option (Nat × Str) :=
  let ds := s.takeWhile Char.isDigit
  if ds.isEmpty then none else some (digitsVal ds, s.dropWhile Char.isDigit)

/-- Parse of the canonical archive signature serialization. -/
def parseArchiveSig (s : Str) : Option Sig := do
  let s1 ← stripLit (lit "\x7b\"size\": ") s
  let (n, s2) ← parseDigits s1
  let s3 ← stripLit (lit ", \"mtime\": ") s2
  let (m, s4) ← parseDigits s3
  let s5 ← stripLit (lit "\x7d") s4
  if s5.isEmpty then some (.archive n m) else none

/-- Parse of the canonical gallery signature serialization. -/
def parseGallerySig (s : Str) : Option Sig := do
  let s1 ← stripLit (lit "\x7b\"image_count\": ") s
  let (n, s2) ← parseDigits s1
  let s3 ← stripLit (lit ", \"total_image_bytes\": ") s2
  let (m, s4) ← parseDigits s3
  let s5 ← stripLit (lit ", \"newest_mtime\": ") s4
  let (k, s6) ← parseDigits s5
  let s7 ← stripLit (lit "\x7d") s6
  if s7.isEmpty then some (.gallery n m k) else none

/-- Embedding of json.loads on signature columns: recognize the canonical
serializations the engine itself writes; any other content raises. -/
def sigJsonParse (s : Str) : Except Unit Sig :=
  match parseArchiveSig s with
  | some v => .ok v
  | none =>
    match parseGallerySig s with
    | some v => .ok v
    | none => .error ()

/-- The archive decision of perform_scan at the raw record level,
returning the decision and reason code, or the propagated exception when
the record signature column fails to parse.  An absent record, a NULL
column and an empty column are short-circuited by the truthiness guard;
any other unparsable content raises inside the predicate. -/
def archiveDecisionRaw (s : ScanSettings) (duplicatesAvailable : Bool)
    (physExists : Bool) (physStatSize : Nat) (record : Option RawRecord)
    (size mtime : Nat) : Except Unit (Str × Option Str) :=
  let sig := Sig.archive size mtime
  if physExists then do
    let isSame ←
      match record with
      | none => Except.ok false
      | some r =>
        match r.signature_json with
        | none => Except.ok false
        | some js =>
          if js.isEmpty then Except.ok false
          else do
            let v ← sigJsonParse js
            Except.ok (decide (v = sig))
    if isSame then Except.ok (sSKIP, some rcUnchanged)
    else if physStatSize = size then Except.ok (sSKIP, some rcSameSize)
    else if s.duplicates_enabled && duplicatesAvailable then
      Except.ok (sCOPY_DUPLICATE, some rcConflict)
    else Except.ok (sRENAME, some rcConflict)
  else Except.ok (sCOPY, none)

/-!  Theorems. -/

/-- Claim C9: the gallery signature of an empty image list is exactly the
zero triple of image count, total bytes and newest mtime; the function is
total on the empty list and returns without consulting the stat oracle at
all, hence without raising. -/
theorem gallery_signature_empty_zero :
    ∀ stat : FPath → Option (Nat × Nat),
      gallerySignatureStat [] stat = .ok (.gallery 0 0 0) := by
  intro stat
  rfl

/-- Claim C10: the acknowledgement store returns the union of the stored
keys and the marked keys after a mark, marking the same keys again leaves
the stored file content unchanged, and a missing, unreadable or non-list
file loads as the empty set. -/
theorem ack_store_spec :
    ∀ (keys : List Str) (f : AckFile),
      loadAcknowledged (markAcknowledged keys f) = loadAcknowledged f ∪ keys.toFinset
      ∧ markAcknowledged keys (markAcknowledged keys f) = markAcknowledged keys f
      ∧ loadAcknowledged .missing = ∅
      ∧ loadAcknowledged .invalid = ∅
      ∧ loadAcknowledged .notAList = ∅ := by
  intro keys f
  have hload : loadAcknowledged (markAcknowledged keys f)
      = loadAcknowledged f ∪ keys.toFinset := by
    simp [markAcknowledged, loadAcknowledged]
  refine ⟨hload, ?_, rfl, rfl, rfl⟩
  show AckFile.arr _ = AckFile.arr _
  rw [hload, Finset.union_assoc, Finset.union_self]

/-- Claim C3, counterexample: the claim asserts that a record whose
signature_json is corrupt is treated as if no record existed and that the
scan never raises.  On the code, the truthiness guard only short-circuits
a NULL or empty column; any other unparsable content reaches json.loads
unprotected and the error propagates.  At a concrete corrupt column the
planner predicate raises, while the genuine no-record treatment would
return the rename decision. -/
theorem archive_corrupt_record_raises :
    archiveDecisionRaw
      ⟨true, false, true, false, false, lit "zip", false, false, lit "zip",
        false, 1, [lit "zip"], [lit "jpg"]⟩
      false true 5 (some ⟨some (lit "x")⟩) 3 0 = .error ()
    ∧ archiveDecisionRaw
      ⟨true, false, true, false, false, lit "zip", false, false, lit "zip",
        false, 1, [lit "zip"], [lit "jpg"]⟩
      false true 5 none 3 0 = .ok (sRENAME, some rcConflict) := by
  constructor
  · rfl
  · rfl

/-- Claim C3, amended: a record whose signature_json is NULL or the empty
string is treated exactly as if no record existed, falling through to the
appropriate conflict branch; but a record whose non-empty signature_json
fails to parse makes the planner predicate raise, and the error propagates
out of the scan instead of being treated as a missing record. -/
theorem archive_record_json_handling
    (s : ScanSettings) (dup physExists : Bool) (statSz size mtime : Nat)
    (r : RawRecord) :
    (r.signature_json = none ∨ r.signature_json = some [] →
      archiveDecisionRaw s dup physExists statSz (some r) size mtime
        = archiveDecisionRaw s dup physExists statSz none size mtime)
    ∧ (∀ js : Str, r.signature_json = some js → js ≠ [] →
        sigJsonParse js = .error () → physExists = true →
        archiveDecisionRaw s dup physExists statSz (some r) size mtime = .error ()) := by
  constructor
  · intro h
    rcases h with h | h <;> simp [archiveDecisionRaw, h, List.isEmpty]
  · intro js hjs hne hparse hex
    subst hex
    simp only [archiveDecisionRaw, hjs, List.isEmpty_iff, hne, hparse]
    simp [Bind.bind, Except.bind, hne]

/-- C3 witness: the amended record handling theorem applied at a record
whose signature_json column holds the unparsable non-empty string "x". -/
theorem archive_record_json_handling_witness :
    ((⟨some (lit "x")⟩ : RawRecord).signature_json = some (lit "x"))
    ∧ (lit "x" ≠ [])
    ∧ (sigJsonParse (lit "x") = .error ())
    ∧ archiveDecisionRaw
        ⟨true, false, true, false, false, lit "zip", false, false, lit "zip",
          false, 1, [lit "zip"], [lit "jpg"]⟩
        false true 5 (some ⟨some (lit "x")⟩) 3 0 = .error () :=
  ⟨rfl, by decide, rfl,
    (archive_record_json_handling
        ⟨true, false, true, false, false, lit "zip", false, false, lit "zip",
          false, 1, [lit "zip"], [lit "jpg"]⟩
        false true 5 3 0 ⟨some (lit "x")⟩).2
      (lit "x") rfl (by decide) rfl rfl⟩

/-- Claim C6: a walked directory is classified as a gallery exactly when
it has enough direct images, or it is a populated leaf under leaf-only, or
subtree images are considered and suffice while leaf-only is off; a
non-qualifying directory is given the no-images skip exactly when it is a
leaf without direct images, and the below-minimum skip exactly when it has
some but too few direct images.  These are the predicates
discover_galleries applies to every rollup entry. -/
theorem gallery_classifier_spec (s : ScanSettings) (m : DirMeta) :
    (qualifiesDir s m = true ↔
      (s.min_images_to_be_gallery ≤ m.direct_images
        ∨ (s.leaf_only = true ∧ m.is_leaf = true ∧ 1 ≤ m.direct_images)
        ∨ (s.leaf_only = false ∧ s.consider_images_in_subfolders = true
            ∧ s.min_images_to_be_gallery ≤ m.total_images)))
    ∧ (qualifiesDir s m = false →
        ((skipReasonFor s m = some rcNoImages) ↔ (m.direct_images = 0 ∧ m.is_leaf = true))
        ∧ ((skipReasonFor s m = some rcBelowMin) ↔
            (0 < m.direct_images ∧ m.direct_images < s.min_images_to_be_gallery))) := by
  have hrc : rcNoImages ≠ rcBelowMin := by decide
  obtain ⟨d, t, l⟩ := m
  constructor
  · cases hlo : s.leaf_only <;> cases hc : s.consider_images_in_subfolders <;> cases l <;>
      simp [qualifiesDir, hlo, hc] <;> constructor <;> intro h <;>
        rcases Nat.lt_or_ge d s.min_images_to_be_gallery with hd | hd <;>
          simp_all <;> omega
  · intro hq
    unfold skipReasonFor
    have hrc2 : (some rcNoImages = some rcBelowMin) = False := by simp [hrc]
    have hrc3 : (some rcBelowMin = some rcNoImages) = False := by
      simp; intro h; exact hrc h.symm
    split_ifs with hA hB
    · refine ⟨⟨fun _ => ⟨hA.1, hA.2⟩, fun _ => rfl⟩,
        ⟨fun h => absurd h (by simp only [Option.some.injEq]; exact hrc),
          fun h => absurd h.1 (by omega)⟩⟩
    · refine ⟨⟨fun h => absurd h (by simp only [Option.some.injEq]; exact fun hh => hrc hh.symm),
          fun h => absurd h.1 (by omega)⟩,
        ⟨fun _ => hB, fun _ => rfl⟩⟩
    · constructor
      · exact ⟨fun h => by simp at h, fun h => absurd ⟨h.1, h.2⟩ hA⟩
      · exact ⟨fun h => by simp at h, fun h => absurd h hB⟩

/-- Witness for claim C6 at a concrete non-qualifying directory. -/
theorem gallery_classifier_spec_witness :
    qualifiesDir
        ⟨true, false, true, false, false, lit "zip", false, false, lit "zip",
          false, 2, [lit "zip"], [lit "jpg"]⟩ ⟨1, 1, true⟩ = false
    ∧ (((skipReasonFor
          ⟨true, false, true, false, false, lit "zip", false, false, lit "zip",
            false, 2, [lit "zip"], [lit "jpg"]⟩ ⟨1, 1, true⟩ = some rcNoImages)
        ↔ ((1 : Nat) = 0 ∧ true = true))
      ∧ ((skipReasonFor
          ⟨true, false, true, false, false, lit "zip", false, false, lit "zip",
            false, 2, [lit "zip"], [lit "jpg"]⟩ ⟨1, 1, true⟩ = some rcBelowMin)
        ↔ ((0 : Nat) < 1 ∧ (1 : Nat) < 2))) :=
  ⟨by decide,
    (gallery_classifier_spec
      ⟨true, false, true, false, false, lit "zip", false, false, lit "zip",
        false, 2, [lit "zip"], [lit "jpg"]⟩ ⟨1, 1, true⟩).2 (by decide)⟩

/-- Canonical archive decision table, written from the words of the
specification: decision, reason code and target path as functions of the
predicate values of the table rows.  This definition follows the claim,
not the code, and claim C1 compares the two. -/
def specArchiveDecision (dupEnabled dupAvailable physExists recordMatches statSizeEq : Bool)
    (physical rel duplicatesRoot : FPath) (unixTs : Nat) : Str × Option Str × FPath :=
  if !physExists then (sCOPY, none, physical)
  else if recordMatches then (sSKIP, some rcUnchanged, physical)
  else if statSizeEq then (sSKIP, some rcSameSize, physical)
  else if dupEnabled && dupAvailable then
    (sCOPY_DUPLICATE, some rcConflict, duplicatesRoot ++ rel)
  else
    (sRENAME, some rcConflict,
      pathParent physical ++
        [nameStem (pathName physical) ++ lit "_DUP_" ++ natStr unixTs
          ++ nameSuffix (pathName physical)])

/-- Claim C1: for every archive file the planner processes, the emitted
decision, reason code and target are exactly those of the canonical table,
evaluated at the predicates the table names: existence of the resolved
physical target, equality of the stored record signature with the fresh
archive signature, equality of the stat size with the new size, and
duplicate routing availability. -/
theorem archive_planner_matches_table (env : ScanEnv) (s : ScanSettings) (dry : Bool)
    (st : ScanState) (src rel : FPath) (size mtime : Nat) (physical virtualT : FPath) :
    ((archStep env s dry st src rel size mtime physical virtualT).1.decision,
      (archStep env s dry st src rel size mtime physical virtualT).1.reason_code,
      (archStep env s dry st src rel size mtime physical virtualT).1.target_path)
      =
      (let spec := specArchiveDecision s.duplicates_enabled env.duplicatesAvailable
        (fsExists st.fs physical)
        (recSigMatches (st.records physical) (.archive size mtime))
        (decide (statSize env st.fs physical = size))
        physical rel env.duplicatesRoot env.now
      (spec.1, spec.2.1, some spec.2.2)) := by
  unfold archStep specArchiveDecision dupRenameTarget
  by_cases he : fsExists st.fs physical <;>
    by_cases hm : recSigMatches (st.records physical) (.archive size mtime) <;>
      by_cases hsz : statSize env st.fs physical = size <;>
        by_cases hd : s.duplicates_enabled && env.duplicatesAvailable <;>
          simp [he, hm, hsz, hd]

/-- Claim C7: the touch operation changes last_seen_at only, leaving every
other field and every other record unchanged, and on an executing scan
each content-confirming skip (unchanged archive, same-signature gallery
zip or folder copy) replaces the record store by exactly the touch of the
confirmed target at the current time. -/
theorem touch_bumps_last_seen_only (env : ScanEnv) (s : ScanSettings) (st : ScanState) :
    (∀ (rs : RecordStore) (t : FPath) (now : Nat),
      (∀ q, q ≠ t → touchRecord rs t now q = rs q)
      ∧ touchRecord rs t now t = (rs t).map (fun r => { r with last_seen_at := now }))
    ∧ (∀ src rel size mtime physical virtualT,
        fsExists st.fs physical = true →
        recSigMatches (st.records physical) (.archive size mtime) = true →
        (archStep env s false st src rel size mtime physical virtualT).2.records
          = touchRecord st.records physical env.now)
    ∧ (∀ g target virtualT,
        fsExists st.fs target = true →
        recSigMatches (st.records target) g.signature = true →
        (zipStep env s false st g target virtualT).2.records
          = touchRecord st.records target env.now)
    ∧ (∀ g sidecars targetDir,
        fsExists st.fs targetDir = true →
        recSigMatches (st.records targetDir) g.signature = true →
        (folderStep env s false st g sidecars targetDir).2.records
          = touchRecord st.records targetDir env.now) := by
  refine ⟨?_, ?_, ?_, ?_⟩
  · intro rs t now
    constructor
    · intro q hq
      simp [touchRecord, hq]
    · simp [touchRecord]
  · intro src rel size mtime physical virtualT he hm
    simp [archStep, he, hm]
  · intro g target virtualT he hm
    simp [zipStep, he, hm]
  · intro g sidecars targetDir he hm
    simp [folderStep, he, hm]

/-- Witness for claim C7 at a concrete state holding one record whose
signature matches the archive being rescanned. -/
theorem touch_bumps_last_seen_only_witness :
    (fsExists
        (fun q => if q = [lit "out", lit "a.zip"] then some (FsEntry.file 3 4) else none)
        [lit "out", lit "a.zip"] = true)
    ∧ (recSigMatches
        ((fun q => if q = [lit "out", lit "a.zip"] then
            some (⟨[lit "src", lit "a.zip"], tArchive, some (.archive 3 4), none, 1, 1, 1⟩
              : ArchiveRecord)
          else none) [lit "out", lit "a.zip"]) (.archive 3 4) = true)
    ∧ (archStep
        ⟨[lit "data"], [lit "out"], [lit "dup"], false, fun _ => lit "00000000", 9, 7, 5⟩
        ⟨true, false, true, false, false, lit "zip", false, false, lit "zip",
          false, 1, [lit "zip"], [lit "jpg"]⟩
        false
        ⟨fun q => if q = [lit "out", lit "a.zip"] then some (FsEntry.file 3 4) else none,
          fun q => if q = [lit "out", lit "a.zip"] then
            some ⟨[lit "src", lit "a.zip"], tArchive, some (.archive 3 4), none, 1, 1, 1⟩
          else none⟩
        [lit "src", lit "a.zip"] [lit "src", lit "a.zip"] 3 4
        [lit "out", lit "a.zip"] [lit "out", lit "a.zip"]).2.records
      = touchRecord
        (fun q => if q = [lit "out", lit "a.zip"] then
          some ⟨[lit "src", lit "a.zip"], tArchive, some (.archive 3 4), none, 1, 1, 1⟩
        else none)
        [lit "out", lit "a.zip"] 9 := by
  refine ⟨by decide, by decide, ?_⟩
  exact (touch_bumps_last_seen_only
      ⟨[lit "data"], [lit "out"], [lit "dup"], false, fun _ => lit "00000000", 9, 7, 5⟩
      ⟨true, false, true, false, false, lit "zip", false, false, lit "zip",
        false, 1, [lit "zip"], [lit "jpg"]⟩
      ⟨fun q => if q = [lit "out", lit "a.zip"] then some (FsEntry.file 3 4) else none,
        fun q => if q = [lit "out", lit "a.zip"] then
          some ⟨[lit "src", lit "a.zip"], tArchive, some (.archive 3 4), none, 1, 1, 1⟩
        else none⟩).2.1
    [lit "src", lit "a.zip"] [lit "src", lit "a.zip"] 3 4
    [lit "out", lit "a.zip"] [lit "out", lit "a.zip"] (by decide) (by decide)

/-!  Helper lemmas about pathlib-style names, feeding the atomic zip
theorem. -/

/-- The head of a nonempty dropWhile result fails the predicate. -/
theorem dropWhile_head_false (p : Char → Bool) :
    ∀ (l : List Char) (c : Char) (rest : List Char),
      l.dropWhile p = c :: rest → p c = false := by
  intro l
  induction l with
  | nil => intro c rest h; simp at h
  | cons x xs ih =>
    intro c rest h
    rw [List.dropWhile_cons] at h
    by_cases hp : p x
    · rw [if_pos hp] at h
      exact ih c rest h
    · rw [if_neg hp] at h
      cases h
      simpa using hp

/-- The stem and the suffix of a name concatenate back to the name. -/
theorem nameStem_append_nameSuffix (n : Str) : nameStem n ++ nameSuffix n = n := by
  unfold nameStem nameSuffix
  by_cases h : 0 < (trailingRun n).length ∧ (trailingRun n).length + 1 < n.length
  · rw [if_pos h]
    have hsplit : n.reverse.takeWhile (fun c => c ≠ '.')
        ++ n.reverse.dropWhile (fun c => c ≠ '.') = n.reverse :=
      List.takeWhile_append_dropWhile _ _
    have hn : n = (n.reverse.dropWhile (fun c => c ≠ '.')).reverse ++ trailingRun n := by
      have h2 := congrArg List.reverse hsplit
      rw [List.reverse_append, List.reverse_reverse] at h2
      conv_lhs => rw [← h2]
      rfl
    have hdne : n.reverse.dropWhile (fun c => c ≠ '.') ≠ [] := by
      intro hnil
      have hlen := congrArg List.length hn
      rw [hnil] at hlen
      simp only [List.reverse_nil, List.nil_append] at hlen
      omega
    obtain ⟨c, d2, hcd⟩ : ∃ c d2, n.reverse.dropWhile (fun c => c ≠ '.') = c :: d2 := by
      cases hcase : n.reverse.dropWhile (fun c => c ≠ '.') with
      | nil => exact absurd hcase hdne
      | cons c d2 => exact ⟨c, d2, rfl⟩
    have hc : c = '.' := by
      have := dropWhile_head_false _ _ _ _ hcd
      simpa using this
    subst hc
    rw [hcd] at hn
    have hn2 : n = d2.reverse ++ ('.' :: trailingRun n) := by
      refine hn.trans ?_
      simp
    have hlen : n.length - ('.' :: trailingRun n).length = d2.reverse.length := by
      have hl2 := congrArg List.length hn2
      simp only [List.length_append, List.length_cons, List.length_reverse] at hl2 ⊢
      omega
    calc n.take (n.length - ('.' :: trailingRun n).length) ++ '.' :: trailingRun n
        = (d2.reverse ++ ('.' :: trailingRun n)).take d2.reverse.length
            ++ '.' :: trailingRun n := by rw [hlen, ← hn2]
      _ = d2.reverse ++ '.' :: trailingRun n := by rw [List.take_left]
      _ = n := hn2.symm
  · rw [if_neg h]
    simp

/-- The suffix of a name is empty or starts with a dot. -/
theorem nameSuffix_shape (n : Str) : nameSuffix n = [] ∨ ∃ t, nameSuffix n = '.' :: t := by
  unfold nameSuffix
  split_ifs
  · exact Or.inr ⟨_, rfl⟩
  · exact Or.inl rfl

/-- A temporary zip name never equals the target name, because the part
after the stem starts with an underscore while a suffix is empty or starts
with a dot. -/
theorem tmpZipName_ne_name (target : FPath) (rand : Str) :
    tmpZipName target rand ≠ pathName target := by
  intro h
  have hss := nameStem_append_nameSuffix (pathName target)
  have hu : lit "_" = ['_'] := rfl
  have hX : tmpZipName target rand
      = nameStem (pathName target) ++ ('_' :: (rand ++ lit ".zip.tmp")) := by
    unfold tmpZipName
    rw [hu, List.append_assoc, List.append_assoc]
    rfl
  have h2 : nameStem (pathName target) ++ ('_' :: (rand ++ lit ".zip.tmp"))
      = nameStem (pathName target) ++ nameSuffix (pathName target) :=
    (hX.symm.trans h).trans hss.symm
  have hx : ('_' :: (rand ++ lit ".zip.tmp")) = nameSuffix (pathName target) :=
    (List.append_right_inj _).mp h2
  rcases nameSuffix_shape (pathName target) with hs | ⟨t, hs⟩
  · rw [hs] at hx
    exact List.cons_ne_nil _ _ hx
  · rw [hs] at hx
    have h3 : '_' = '.' := (List.cons.inj hx).1
    exact absurd h3 (by decide)

/-- The last component of an extended path is the appended name. -/
theorem pathName_append (parent : FPath) (nm : Str) : pathName (parent ++ [nm]) = nm := by
  simp [pathName]

/-- Paths with different last components differ. -/
theorem path_ne_of_name_ne {p q : FPath} (h : pathName p ≠ pathName q) : p ≠ q :=
  fun e => h (congrArg pathName e)

/-- Strings with different last characters differ. -/
theorem str_ne_of_last_ne {x y : Str} {cx cy : Char} (hx : x.getLast? = some cx)
    (hy : y.getLast? = some cy) (h : cx ≠ cy) : x ≠ y := by
  intro e
  rw [e, hy] at hx
  exact h (Option.some.inj hx).symm

/-- A temporary zip name ends in the letter of .zip.tmp. -/
theorem tmpZipName_last (target : FPath) (rand : Str) :
    (tmpZipName target rand).getLast? = some 'p' := by
  unfold tmpZipName
  rw [List.getLast?_append_of_ne_nil _ (by decide)]
  rfl

/-- A partial name ends in the letter of .partial. -/
theorem partialName_last (nm : Str) : (nm ++ lit ".partial").getLast? = some 'l' := by
  rw [List.getLast?_append_of_ne_nil _ (by decide)]
  rfl

/-- The partial path differs from the target. -/
theorem partialPath_ne_target (target : FPath) : partialPath target ≠ target := by
  unfold partialPath
  cases htgt : target with
  | nil => simp
  | cons c rest =>
    rw [← htgt]
    apply path_ne_of_name_ne
    rw [pathName_append]
    intro e
    have hlen := congrArg List.length e
    rw [List.length_append] at hlen
    have h8 : (lit ".partial").length = 8 := by decide
    omega

/-- The zip write body leaves any cell other than the target and the
partial path at its old value, or clears it. -/
theorem writeZipBody_frame (target : FPath) (o : ZipOracle) (tmp : FPath) (fs1 : ZipFs)
    (cell : FPath) (ht : cell ≠ target) (hp : cell ≠ partialPath target) :
    (writeZipBody target o tmp fs1).2.1 cell = fs1 cell
    ∨ (writeZipBody target o tmp fs1).2.1 cell = false := by
  unfold writeZipBody
  by_cases htmp : cell = tmp
  · subst htmp
    by_cases h3 : o.zipFail <;> by_cases h4 : o.mkdirFail <;> by_cases h6 : o.renameFail <;>
      by_cases h5 : o.renameExdev <;> by_cases h7 : o.copyFail <;>
        by_cases h8 : o.copyPartialCreated <;> by_cases h9 : o.rename2Fail <;>
          simp [h3, h4, h5, h6, h7, h8, h9, fsAdd, fsRemove, ht, hp]
  · by_cases h3 : o.zipFail <;> by_cases h4 : o.mkdirFail <;> by_cases h6 : o.renameFail <;>
      by_cases h5 : o.renameExdev <;> by_cases h7 : o.copyFail <;>
        by_cases h8 : o.copyPartialCreated <;> by_cases h9 : o.rename2Fail <;>
          simp [h3, h4, h5, h6, h7, h8, h9, htmp, fsAdd, fsRemove, ht, hp]

/-- After the finally block, a cell that is the temporary itself, or a cell
away from the target and partial paths that was clear before the body ran,
is clear. -/
theorem cleanup_cell_false (target : FPath) (o : ZipOracle) (tmp : FPath) (fs1 : ZipFs)
    (cell : FPath)
    (hcase : cell = tmp ∨ (cell ≠ target ∧ cell ≠ partialPath target ∧ fs1 cell = false)) :
    (if (writeZipBody target o tmp fs1).2.2 then
        fsRemove (fsRemove (writeZipBody target o tmp fs1).2.1 tmp) (partialPath target)
      else fsRemove (writeZipBody target o tmp fs1).2.1 tmp) cell = false := by
  rcases hcase with h | ⟨ht, hp, hv⟩
  · subst h
    cases hps : (writeZipBody target o cell fs1).2.2 <;>
      by_cases hcp : cell = partialPath target <;> simp [fsRemove, hcp, hps]
  · rcases writeZipBody_frame target o tmp fs1 cell ht hp with hb | hb <;>
      cases hps : (writeZipBody target o tmp fs1).2.2 <;>
        by_cases htmp : cell = tmp <;> simp [fsRemove, htmp, hp, hb, hv, hps]

/-- After the finally block, the partial path is clear whenever it was
clear before the body ran or it coincides with the temporary. -/
theorem cleanup_partial_false (target : FPath) (o : ZipOracle) (tmp : FPath) (fs1 : ZipFs)
    (h : fs1 (partialPath target) = false ∨ partialPath target = tmp) :
    (if (writeZipBody target o tmp fs1).2.2 then
        fsRemove (fsRemove (writeZipBody target o tmp fs1).2.1 tmp) (partialPath target)
      else fsRemove (writeZipBody target o tmp fs1).2.1 tmp) (partialPath target) = false := by
  rcases h with h | h
  · cases hps : (writeZipBody target o tmp fs1).2.2 with
    | true => simp [fsRemove]
    | false =>
      by_cases htmp : partialPath target = tmp
      · simp [fsRemove, htmp]
      · have hframe : (writeZipBody target o tmp fs1).2.1 (partialPath target) = false := by
          unfold writeZipBody at hps ⊢
          by_cases h3 : o.zipFail <;> by_cases h4 : o.mkdirFail <;>
            by_cases h6 : o.renameFail <;> by_cases h5 : o.renameExdev <;>
              by_cases h7 : o.copyFail <;> by_cases h8 : o.copyPartialCreated <;>
                by_cases h9 : o.rename2Fail <;>
                  simp_all [fsAdd, fsRemove, htmp,
                    (partialPath_ne_target target : partialPath target ≠ target)]
        simp [fsRemove, htmp, hframe]
  · rw [h]
    cases hps : (writeZipBody target o tmp fs1).2.2 <;>
      by_cases hcp : tmp = partialPath target <;> simp [fsRemove, hcp]

/-- Claim C5: on every exit path of the atomic zip write, normal return,
cross-device fallback, or any raised exception, both candidate temporary
files and any partial file are unlinked with missing files ignored, so
that no zip temporary or partial file created by the write remains
afterwards. -/
theorem write_zip_cleanup (tmpRoot target : FPath) (o : ZipOracle) (fs : ZipFs) :
    (fs (tmpInTargetDir target o) = false →
      (writeZip tmpRoot target o fs).2 (tmpInTargetDir target o) = false)
    ∧ (fs (tmpInTmpRoot tmpRoot target o) = false →
      (writeZip tmpRoot target o fs).2 (tmpInTmpRoot tmpRoot target o) = false)
    ∧ (fs (partialPath target) = false →
      (writeZip tmpRoot target o fs).2 (partialPath target) = false) := by
  have hA_t : tmpInTargetDir target o ≠ target :=
    path_ne_of_name_ne (by
      rw [tmpInTargetDir, pathName_append]
      exact tmpZipName_ne_name target o.rand1)
  have hB_t : tmpInTmpRoot tmpRoot target o ≠ target :=
    path_ne_of_name_ne (by
      rw [tmpInTmpRoot, pathName_append]
      exact tmpZipName_ne_name target o.rand2)
  have hA_p : tmpInTargetDir target o ≠ partialPath target :=
    path_ne_of_name_ne (by
      rw [tmpInTargetDir, pathName_append, partialPath, pathName_append]
      exact str_ne_of_last_ne (tmpZipName_last target o.rand1)
        (partialName_last (pathName target)) (by decide))
  have hB_p : tmpInTmpRoot tmpRoot target o ≠ partialPath target :=
    path_ne_of_name_ne (by
      rw [tmpInTmpRoot, pathName_append, partialPath, pathName_append]
      exact str_ne_of_last_ne (tmpZipName_last target o.rand2)
        (partialName_last (pathName target)) (by decide))
  refine ⟨fun hcA => ?_, fun hcB => ?_, fun hcP => ?_⟩
  · cases hf1 : o.tmpDirFail
    · simp only [writeZip, createTempZipPath, hf1, Bool.false_eq_true, if_false]
      exact cleanup_cell_false target o _ _ _ (Or.inl rfl)
    · cases hf2 : o.tmpRootFail
      · simp only [writeZip, createTempZipPath, hf1, hf2, Bool.false_eq_true,
          if_true, if_false]
        by_cases hab : tmpInTargetDir target o = tmpInTmpRoot tmpRoot target o
        · exact cleanup_cell_false target o _ _ _ (Or.inl hab)
        · exact cleanup_cell_false target o _ _ _
            (Or.inr ⟨hA_t, hA_p, by simp [fsAdd, hab, hcA]⟩)
      · simp only [writeZip, createTempZipPath, hf1, hf2, if_true]
        exact hcA
  · cases hf1 : o.tmpDirFail
    · simp only [writeZip, createTempZipPath, hf1, Bool.false_eq_true, if_false]
      by_cases hab : tmpInTmpRoot tmpRoot target o = tmpInTargetDir target o
      · exact cleanup_cell_false target o _ _ _ (Or.inl hab)
      · exact cleanup_cell_false target o _ _ _
          (Or.inr ⟨hB_t, hB_p, by simp [fsAdd, hab, hcB]⟩)
    · cases hf2 : o.tmpRootFail
      · simp only [writeZip, createTempZipPath, hf1, hf2, Bool.false_eq_true,
          if_true, if_false]
        exact cleanup_cell_false target o _ _ _ (Or.inl rfl)
      · simp only [writeZip, createTempZipPath, hf1, hf2, if_true]
        exact hcB
  · cases hf1 : o.tmpDirFail
    · simp only [writeZip, createTempZipPath, hf1, Bool.false_eq_true, if_false]
      exact cleanup_partial_false target o _ _
        (by
          by_cases hpa : partialPath target = tmpInTargetDir target o
          · exact Or.inr hpa
          · exact Or.inl (by simp [fsAdd, hpa, hcP]))
    · cases hf2 : o.tmpRootFail
      · simp only [writeZip, createTempZipPath, hf1, hf2, Bool.false_eq_true,
          if_true, if_false]
        exact cleanup_partial_false target o _ _
          (by
            by_cases hpa : partialPath target = tmpInTmpRoot tmpRoot target o
            · exact Or.inr hpa
            · exact Or.inl (by simp [fsAdd, hpa, hcP]))
      · simp only [writeZip, createTempZipPath, hf1, hf2, if_true]
        exact hcP

/-- Witness for claim C5 along the cross-device fallback path on an empty
filesystem. -/
theorem write_zip_cleanup_witness :
    ((fun _ => false : ZipFs) (tmpInTargetDir [lit "out", lit "g.zip"]
        ⟨false, false, false, false, true, false, false, false, false,
          lit "ab", lit "cd"⟩) = false)
    ∧ ((writeZip [lit "tmp"] [lit "out", lit "g.zip"]
        ⟨false, false, false, false, true, false, false, false, false,
          lit "ab", lit "cd"⟩ (fun _ => false)).2
        (tmpInTargetDir [lit "out", lit "g.zip"]
          ⟨false, false, false, false, true, false, false, false, false,
            lit "ab", lit "cd"⟩) = false)
    ∧ ((writeZip [lit "tmp"] [lit "out", lit "g.zip"]
        ⟨false, false, false, false, true, false, false, false, false,
          lit "ab", lit "cd"⟩ (fun _ => false)).2
        (partialPath [lit "out", lit "g.zip"]) = false) :=
  ⟨rfl,
    (write_zip_cleanup [lit "tmp"] [lit "out", lit "g.zip"]
      ⟨false, false, false, false, true, false, false, false, false,
        lit "ab", lit "cd"⟩ (fun _ => false)).1 rfl,
    (write_zip_cleanup [lit "tmp"] [lit "out", lit "g.zip"]
      ⟨false, false, false, false, true, false, false, false, false,
        lit "ab", lit "cd"⟩ (fun _ => false)).2.2 rfl⟩

/-!  Flatten resolution: claim C4. -/

/-- If a predicate finds nothing in a first list, searching the
concatenation searches the second list. -/
theorem find?_append_of_none {α : Type} (p : α → Bool) :
    ∀ (l₁ l₂ : List α), l₁.find? p = none → (l₁ ++ l₂).find? p = l₂.find? p := by
  intro l₁
  induction l₁ with
  | nil => intro l₂ _; rfl
  | cons a as ih =>
    intro l₂ h
    rw [List.find?_cons] at h
    rw [List.cons_append, List.find?_cons]
    cases hp : p a
    · rw [hp] at h
      exact ih l₂ h
    · rw [hp] at h
      exact absurd h (by simp)

/-- A hit in the first list survives concatenation. -/
theorem find?_append_of_some {α : Type} (p : α → Bool) :
    ∀ (l₁ l₂ : List α) (a : α), l₁.find? p = some a → (l₁ ++ l₂).find? p = some a := by
  intro l₁
  induction l₁ with
  | nil => intro l₂ a h; simp at h
  | cons b bs ih =>
    intro l₂ a h
    rw [List.find?_cons] at h
    rw [List.cons_append, List.find?_cons]
    cases hp : p b
    · rw [hp] at h
      exact ih l₂ a h
    · rw [hp] at h
      exact h

/-- Setdefault on an absent key makes the key map to the given value. -/
theorem fmapGet_setdefault_absent (m : List (Str × Str)) (k v : Str)
    (h : fmapGet m k = none) : fmapGet (fmapSetdefault m k v) k = some v := by
  unfold fmapSetdefault
  rw [h]
  unfold fmapGet at h ⊢
  have hfind : m.find? (fun e => e.1 = k) = none := by
    cases hf : m.find? (fun e => e.1 = k) with
    | none => rfl
    | some e => rw [hf] at h; simp at h
  rw [find?_append_of_none _ _ _ hfind]
  simp

/-- Setdefault never changes an existing binding. -/
theorem fmapGet_setdefault_preserve (m : List (Str × Str)) (k v k2 s : Str)
    (h : fmapGet m k2 = some s) : fmapGet (fmapSetdefault m k v) k2 = some s := by
  unfold fmapSetdefault
  cases hg : fmapGet m k with
  | some t => exact h
  | none =>
    unfold fmapGet at h ⊢
    obtain ⟨e, he, hes⟩ : ∃ e, m.find? (fun x => x.1 = k2) = some e ∧ e.2 = s := by
      cases hf : m.find? (fun x => x.1 = k2) with
      | none => rw [hf] at h; simp at h
      | some e => rw [hf] at h; exact ⟨e, rfl, by simpa using h⟩
    rw [find?_append_of_some _ _ _ _ he]
    simp [hes]

/-- The resolver with flattening on returns the flatten base under the
output root and performs the setdefault. -/
theorem resolveOutputFile_flatten (h : Str → Str) (root : FPath) (p : FPath)
    (repl : Bool) (m : List (Str × Str)) :
    resolveOutputFile h root p repl true m
      = ((root ++ [flattenBase h m p], root ++ virtualRelpath p repl),
          fmapSetdefault m (flattenBase h m p) (pathStr p)) := by
  unfold resolveOutputFile flattenBase
  cases hg : fmapGet m (pathName p) <;> simp [hg]

/-- Invariant carried along a flatten resolution sequence: every already
resolved path either kept its plain basename, in which case the map pins
that basename to its path string, or was renamed. -/
def DoneOK (h : Str → Str) (m : List (Str × Str)) (done : List (FPath × Str)) : Prop :=
  ∀ e ∈ done,
    (e.2 = pathName e.1 ∧ fmapGet m (pathName e.1) = some (pathStr e.1))
    ∨ e.2 = flattenRenamed h e.1

/-- Main induction for flatten safety: with pairwise distinct path
strings, an injective renaming, and no plain basename of the generated
form, the basenames produced by the resolution sequence extend the already
produced ones without collision. -/
theorem flattenSeq_nodup_aux (h : Str → Str) (root : FPath) (repl : Bool) :
    ∀ (ps : List FPath) (m : List (Str × Str)) (done : List (FPath × Str)),
      DoneOK h m done →
      ((done.map (fun e => pathStr e.1) ++ ps.map pathStr).Nodup) →
      (∀ p ∈ done.map Prod.fst ++ ps, ∀ q ∈ done.map Prod.fst ++ ps,
        flattenRenamed h p = flattenRenamed h q → pathStr p = pathStr q) →
      (∀ p ∈ done.map Prod.fst ++ ps, ∀ q ∈ done.map Prod.fst ++ ps,
        pathName p ≠ flattenRenamed h q) →
      (done.map Prod.snd).Nodup →
      (done.map Prod.snd ++ (flattenSeq h root repl m ps).1.map pathName).Nodup := by
  intro ps
  induction ps with
  | nil =>
    intro m done hdone hdist hhash hbase hnodup
    simpa [flattenSeq] using hnodup
  | cons p ps ih =>
    intro m done hdone hdist hhash hbase hnodup
    rw [flattenSeq, resolveOutputFile_flatten]
    have hmemp : p ∈ done.map Prod.fst ++ p :: ps := by simp
    have hb : flattenBase h m p = pathName p ∧
        (fmapGet m (pathName p) = none ∨ fmapGet m (pathName p) = some (pathStr p))
        ∨ flattenBase h m p = flattenRenamed h p := by
      unfold flattenBase
      cases hg : fmapGet m (pathName p) with
      | none => exact Or.inl ⟨rfl, Or.inl rfl⟩
      | some s =>
        dsimp only
        by_cases hs : s ≠ pathStr p
        · rw [if_pos hs]
          exact Or.inr rfl
        · rw [if_neg hs]
          push_neg at hs
          exact Or.inl ⟨rfl, Or.inr (by rw [hs])⟩
    have hfresh : ∀ e ∈ done, flattenBase h m p ≠ e.2 := by
      intro e he hcontra
      have hq : e.1 ∈ done.map Prod.fst ++ p :: ps :=
        List.mem_append_left _ (List.mem_map_of_mem Prod.fst he)
      have hqstr : pathStr e.1 ≠ pathStr p := by
        intro hps
        have hdisj := List.disjoint_of_nodup_append hdist
        exact hdisj (List.mem_map_of_mem (fun x => pathStr x.1) he)
          (by simp [← hps])
      rcases hdone e he with ⟨hb1, hb2⟩ | hb1
      · rcases hb with ⟨hbp, hget⟩ | hbp
        · rw [hbp, hb1] at hcontra
          rw [hcontra] at hget
          rcases hget with hget | hget
          · rw [hb2] at hget
            simp at hget
          · rw [hb2] at hget
            exact hqstr (by simpa using hget)
        · rw [hbp, hb1] at hcontra
          exact hbase e.1 hq p hmemp hcontra.symm
      · rcases hb with ⟨hbp, _⟩ | hbp
        · rw [hbp, hb1] at hcontra
          exact hbase p hmemp e.1 hq hcontra
        · rw [hbp, hb1] at hcontra
          exact hqstr (hhash e.1 hq p hmemp hcontra.symm)
    have hdone2 : DoneOK h (fmapSetdefault m (flattenBase h m p) (pathStr p))
        (done ++ [(p, flattenBase h m p)]) := by
      intro e he
      rcases List.mem_append.mp he with he | he
      · rcases hdone e he with ⟨hb1, hb2⟩ | hb1
        · exact Or.inl ⟨hb1, fmapGet_setdefault_preserve _ _ _ _ _ hb2⟩
        · exact Or.inr hb1
      · have he2 : e = (p, flattenBase h m p) := by simpa using he
        subst he2
        rcases hb with ⟨hbp, hget⟩ | hbp
        · refine Or.inl ⟨hbp, ?_⟩
          rcases hget with hget | hget
          · rw [hbp]
            exact fmapGet_setdefault_absent _ _ _ hget
          · rw [hbp]
            exact fmapGet_setdefault_preserve _ _ _ _ _ hget
        · exact Or.inr hbp
    have hlist : (done ++ [(p, flattenBase h m p)]).map Prod.fst ++ ps
        = done.map Prod.fst ++ p :: ps := by simp
    have hlist2 : (done ++ [(p, flattenBase h m p)]).map (fun e => pathStr e.1) ++ ps.map pathStr
        = done.map (fun e => pathStr e.1) ++ (p :: ps).map pathStr := by simp
    have hnodup2 : ((done ++ [(p, flattenBase h m p)]).map Prod.snd).Nodup := by
      simp only [List.map_append, List.map_cons, List.map_nil]
      rw [List.nodup_append]
      refine ⟨hnodup, by simp, ?_⟩
      intro a ha
      simp only [List.mem_cons, List.not_mem_nil, or_false]
      intro hab
      obtain ⟨e, he, hes⟩ := List.mem_map.mp ha
      exact hfresh e he (by rw [← hab, hes])
    have hrec := ih (fmapSetdefault m (flattenBase h m p) (pathStr p))
      (done ++ [(p, flattenBase h m p)]) hdone2
      (by rw [hlist2]; exact hdist)
      (by rw [hlist]; exact hhash)
      (by rw [hlist]; exact hbase)
      hnodup2
    simp only [List.map_append, List.map_cons, List.map_nil] at hrec
    rw [List.append_assoc] at hrec
    simpa [pathName_append] using hrec

/-- Claim C4, counterexample: the claim quantifies over every sequence of
source-relative paths resolved through one flatten map, but resolving the
same path twice, which one scan does when an archive file and a gallery
zip share a relative path, returns the same basename twice, so the
basenames are not pairwise distinct even though the hash and basename
assumptions of the claim hold for this input. -/
theorem flatten_repeat_counterexample :
    ((flattenSeq (fun _ => lit "00000000") [lit "out"] true []
        [[lit "a", lit "f.zip"], [lit "a", lit "f.zip"]]).1.map pathName
      = [lit "f.zip", lit "f.zip"])
    ∧ ¬ ((flattenSeq (fun _ => lit "00000000") [lit "out"] true []
        [[lit "a", lit "f.zip"], [lit "a", lit "f.zip"]]).1.map pathName).Nodup
    ∧ (∀ q ∈ [[lit "a", lit "f.zip"], [lit "a", lit "f.zip"]],
        ∀ r ∈ [[lit "a", lit "f.zip"], [lit "a", lit "f.zip"]],
        flattenRenamed (fun _ => lit "00000000") q
          = flattenRenamed (fun _ => lit "00000000") r → pathStr q = pathStr r)
    ∧ (∀ q ∈ [[lit "a", lit "f.zip"], [lit "a", lit "f.zip"]],
        ∀ r ∈ [[lit "a", lit "f.zip"], [lit "a", lit "f.zip"]],
        pathName q ≠ flattenRenamed (fun _ => lit "00000000") r) := by
  refine ⟨by decide, by decide, by decide, by decide⟩

/-- Claim C4, amended: over any sequence of pairwise distinct
source-relative file paths resolved through one scan flatten map, the
basenames of the returned physical paths are pairwise distinct, assuming
the renaming injective on the inputs (no short-hash collisions) and no
input basename of the generated renamed form; and a basename previously
claimed by a different source path is renamed to the stem, two
underscores, the short hash of the full relative path, and the suffix. -/
theorem flatten_basenames_unique (h : Str → Str) (root : FPath) (repl : Bool)
    (ps : List FPath)
    (hdist : (ps.map pathStr).Nodup)
    (hhash : ∀ p ∈ ps, ∀ q ∈ ps,
      flattenRenamed h p = flattenRenamed h q → pathStr p = pathStr q)
    (hbase : ∀ p ∈ ps, ∀ q ∈ ps, pathName p ≠ flattenRenamed h q) :
    ((flattenSeq h root repl [] ps).1.map pathName).Nodup
    ∧ (∀ (m : List (Str × Str)) (p : FPath) (s : Str),
        fmapGet m (pathName p) = some s → s ≠ pathStr p →
        (resolveOutputFile h root p repl true m).1.1
          = root ++ [flattenRenamed h p]) := by
  constructor
  · have haux := flattenSeq_nodup_aux h root repl ps [] []
      (by intro e he; simp at he)
      (by simpa using hdist)
      (by simpa using hhash)
      (by simpa using hbase)
      (by simp)
    simpa using haux
  · intro m p s hg hs
    rw [resolveOutputFile_flatten]
    unfold flattenBase
    rw [hg]
    dsimp only
    rw [if_pos hs]

/-- Witness for claim C4 at two distinct paths sharing a basename. -/
theorem flatten_basenames_unique_witness :
    (([[lit "a", lit "f.zip"], [lit "b", lit "f.zip"]].map pathStr).Nodup
      ∧ (∀ q ∈ [[lit "a", lit "f.zip"], [lit "b", lit "f.zip"]],
          ∀ r ∈ [[lit "a", lit "f.zip"], [lit "b", lit "f.zip"]],
          flattenRenamed (fun s => s.take 8) q
            = flattenRenamed (fun s => s.take 8) r → pathStr q = pathStr r)
      ∧ (∀ q ∈ [[lit "a", lit "f.zip"], [lit "b", lit "f.zip"]],
          ∀ r ∈ [[lit "a", lit "f.zip"], [lit "b", lit "f.zip"]],
          pathName q ≠ flattenRenamed (fun s => s.take 8) r))
    ∧ ((flattenSeq (fun s => s.take 8) [lit "out"] true []
        [[lit "a", lit "f.zip"], [lit "b", lit "f.zip"]]).1.map pathName).Nodup :=
  ⟨⟨by decide, by decide, by decide⟩,
    (flatten_basenames_unique (fun s => s.take 8) [lit "out"] true
      [[lit "a", lit "f.zip"], [lit "b", lit "f.zip"]]
      (by decide) (by decide) (by decide)).1⟩

/-!  The action spine of the scan fold: the sequence of emitted actions as
a function of the item list and the starting state, and its relation to
runScanAux. -/

/-- Actions emitted by stepping a list of items from a state. -/
def scanActionsFrom (env : ScanEnv) (s : ScanSettings) (dry : Bool) :
    List ScanItem → ScanState → List PlanAction
  | [], _ => []
  | it :: rest, st =>
    (stepItem env s dry st it).1 :: scanActionsFrom env s dry rest (stepItem env s dry st it).2

/-- The scan loop emits exactly the accumulated actions followed by the
spine. -/
theorem runScanAux_actions (env : ScanEnv) (s : ScanSettings) (dry : Bool) :
    ∀ (items : List ScanItem) (st : ScanState) (sum : ScanSummary) (acts : List PlanAction),
      (runScanAux env s dry items st sum acts).actions
        = acts ++ scanActionsFrom env s dry items st := by
  intro items
  induction items with
  | nil => intro st sum acts; simp [runScanAux, scanActionsFrom]
  | cons it rest ih =>
    intro st sum acts
    rw [runScanAux, scanActionsFrom]
    rw [ih]
    simp [registerAction]

/-- Reason bookkeeping does not change the planned counter. -/
theorem appendReason_planned (sum : ScanSummary) (r : Option Str) :
    (appendReason sum r).planned = sum.planned := by
  unfold appendReason
  cases r with
  | none => rfl
  | some v =>
    dsimp only
    split_ifs <;> rfl

/-- Registering an action increments planned exactly on non-skip
decisions. -/
theorem registerAction_planned (a : PlanAction) (sum : ScanSummary) (acts : List PlanAction) :
    (registerAction a sum acts).1.planned
      = (if a.decision = sSKIP then sum.planned else sum.planned + 1) := by
  unfold registerAction
  split_ifs with h1 <;> simp [appendReason_planned, h1]

/-- The planned counter of the scan loop counts the non-skip actions of
the spine. -/
theorem runScanAux_planned (env : ScanEnv) (s : ScanSettings) (dry : Bool) :
    ∀ (items : List ScanItem) (st : ScanState) (sum : ScanSummary) (acts : List PlanAction),
      (runScanAux env s dry items st sum acts).summary.planned
        = sum.planned
          + ((scanActionsFrom env s dry items st).filter
              (fun a => !(a.decision = sSKIP : Bool))).length := by
  intro items
  induction items with
  | nil => intro st sum acts; simp [runScanAux, scanActionsFrom]
  | cons it rest ih =>
    intro st sum acts
    rw [runScanAux, scanActionsFrom]
    rw [ih]
    rw [List.filter_cons]
    by_cases h : (stepItem env s dry st it).1.decision = sSKIP
    · simp [registerAction_planned, h]
    · simp [registerAction_planned, h]
      omega

/-- Every action of the spine is the step of some item at some state. -/
theorem scanActionsFrom_mem (env : ScanEnv) (s : ScanSettings) (dry : Bool) :
    ∀ (items : List ScanItem) (st : ScanState) (a : PlanAction),
      a ∈ scanActionsFrom env s dry items st →
      ∃ it ∈ items, ∃ st2, a = (stepItem env s dry st2 it).1 := by
  intro items
  induction items with
  | nil => intro st a ha; simp [scanActionsFrom] at ha
  | cons it rest ih =>
    intro st a ha
    rw [scanActionsFrom] at ha
    rcases List.mem_cons.mp ha with ha | ha
    · exact ⟨it, by simp, st, ha⟩
    · obtain ⟨it2, hit2, st2, hst2⟩ := ih _ a ha
      exact ⟨it2, by simp [hit2], st2, hst2⟩

/-!  Itemization shape lemmas, feeding claims C8 and C2. -/

/-- Membership in a sorted insertion. -/
theorem mem_insSorted {α : Type} (le : α → α → Bool) (b : α) :
    ∀ (l : List α) (a : α), a ∈ insSorted le b l ↔ a = b ∨ a ∈ l := by
  intro l
  induction l with
  | nil => intro a; simp [insSorted]
  | cons c r ih =>
    intro a
    unfold insSorted
    split_ifs with hle
    · simp
    · simp only [List.mem_cons, ih]
      tauto

/-- Sorting preserves membership. -/
theorem mem_sortBy {α : Type} (le : α → α → Bool) :
    ∀ (l : List α) (a : α), a ∈ sortBy le l ↔ a ∈ l := by
  intro l
  induction l with
  | nil => intro a; simp [sortBy]
  | cons c r ih =>
    intro a
    rw [sortBy, mem_insSorted]
    simp [ih]

/-- The archive loop produces only archive items. -/
theorem archiveItemsAux_shape (env : ScanEnv) (s : ScanSettings) (srcPath absBase : FPath)
    (exclusions : List FPath) :
    ∀ (files : List (FPath × Nat × Nat)) (m : List (Str × Str)) (it : ScanItem),
      it ∈ (archiveItemsAux env s srcPath absBase exclusions files m).1 →
      ∃ a b c d e f, it = ScanItem.archiveIt a b c d e f := by
  intro files
  induction files with
  | nil => intro m it hit; simp [archiveItemsAux] at hit
  | cons f rest ih =>
    intro m it hit
    obtain ⟨relw, sz, mt⟩ := f
    rw [archiveItemsAux] at hit
    split_ifs at hit with hexc
    · exact ih _ it hit
    · rcases List.mem_cons.mp hit with h | h
      · exact ⟨_, _, _, _, _, _, h⟩
      · exact ih _ it h

/-- The items of one gallery are its zero-image skip or its zip and
folder items. -/
theorem galleryOneItems_shape (env : ScanEnv) (s : ScanSettings) (t : FsTree)
    (g : GalleryData) (m : List (Str × Str)) :
    ∀ it ∈ (galleryOneItems env s t g m).1,
      it = .skipIt (galleryZeroImagesSkip g)
      ∨ (∃ tgt virt, it = .zipIt g tgt virt)
      ∨ (∃ sc tgt, it = .folderIt g sc tgt) := by
  intro it hit
  unfold galleryOneItems at hit
  split_ifs at hit with hz
  · exact Or.inl (List.mem_singleton.mp hit)
  · rcases List.mem_append.mp hit with h | h
    · unfold galleryZipItems at h
      split_ifs at h with hzz
      · exact Or.inr (Or.inl ⟨_, _, List.mem_singleton.mp h⟩)
      · simp at h
    · unfold galleryFolderItems at h
      split_ifs at h with hff
      · exact Or.inr (Or.inr ⟨_, _, List.mem_singleton.mp h⟩)
      · simp at h

/-- The gallery loop produces only zero-image skips and zip and folder
items of galleries from its input list. -/
theorem galleryItemsAux_shape (env : ScanEnv) (s : ScanSettings) (srcPath : FPath)
    (t : FsTree) (exclusions : List FPath) :
    ∀ (gals : List GalleryData) (m : List (Str × Str)) (it : ScanItem),
      it ∈ (galleryItemsAux env s srcPath t exclusions gals m).1 →
      (∃ g, g ∈ gals ∧ it = .skipIt (galleryZeroImagesSkip g))
      ∨ (∃ g tgt virt, g ∈ gals ∧ it = .zipIt g tgt virt)
      ∨ (∃ g sc tgt, g ∈ gals ∧ it = .folderIt g sc tgt) := by
  intro gals
  induction gals with
  | nil => intro m it hit; simp [galleryItemsAux] at hit
  | cons g rest ih =>
    intro m it hit
    have lift : ∀ {x : ScanItem},
        ((∃ g2, g2 ∈ rest ∧ x = ScanItem.skipIt (galleryZeroImagesSkip g2))
        ∨ (∃ g2 tgt virt, g2 ∈ rest ∧ x = ScanItem.zipIt g2 tgt virt)
        ∨ (∃ g2 sc tgt, g2 ∈ rest ∧ x = ScanItem.folderIt g2 sc tgt)) →
        ((∃ g2, g2 ∈ g :: rest ∧ x = ScanItem.skipIt (galleryZeroImagesSkip g2))
        ∨ (∃ g2 tgt virt, g2 ∈ g :: rest ∧ x = ScanItem.zipIt g2 tgt virt)
        ∨ (∃ g2 sc tgt, g2 ∈ g :: rest ∧ x = ScanItem.folderIt g2 sc tgt)) := by
      intro x hx
      rcases hx with ⟨g2, hg2, he⟩ | ⟨g2, tgt, virt, hg2, he⟩ | ⟨g2, sc, tgt, hg2, he⟩
      · exact Or.inl ⟨g2, List.mem_cons_of_mem g hg2, he⟩
      · exact Or.inr (Or.inl ⟨g2, tgt, virt, List.mem_cons_of_mem g hg2, he⟩)
      · exact Or.inr (Or.inr ⟨g2, sc, tgt, List.mem_cons_of_mem g hg2, he⟩)
    rw [galleryItemsAux] at hit
    split_ifs at hit with hexc
    · exact lift (ih _ it hit)
    · rcases List.mem_append.mp hit with h | h
      · rcases galleryOneItems_shape env s t g m it h with he | ⟨tgt, virt, he⟩ | ⟨sc, tgt, he⟩
        · exact Or.inl ⟨g, List.mem_cons_self g rest, he⟩
        · exact Or.inr (Or.inl ⟨g, tgt, virt, List.mem_cons_self g rest, he⟩)
        · exact Or.inr (Or.inr ⟨g, sc, tgt, List.mem_cons_self g rest, he⟩)
      · exact lift (ih _ it h)

/-- Every discovered gallery carries the source base and the walk-relative
path in its two path fields. -/
theorem discoverGalleries_paths (s : ScanSettings) (absBase relBase : FPath) (t : FsTree) :
    ∀ g ∈ (discoverGalleries s absBase relBase t).1,
      g.path = absBase ++ g.relw ∧ g.relDir = relBase ++ g.relw := by
  intro g hg
  unfold discoverGalleries at hg
  dsimp only at hg
  obtain ⟨e, _, he⟩ := List.mem_filterMap.mp hg
  split_ifs at he with hq
  cases he
  exact ⟨rfl, rfl⟩

/-- A produced skip reason is one of the two classifier reasons. -/
theorem skipReasonFor_cases {s : ScanSettings} {m : DirMeta} {r : Str}
    (h : skipReasonFor s m = some r) : r = rcNoImages ∨ r = rcBelowMin := by
  unfold skipReasonFor at h
  split_ifs at h
  · exact Or.inl (Option.some.inj h).symm
  · exact Or.inr (Option.some.inj h).symm

/-- Every classifier skip of the discovery carries the scan gallery action
name, the skip decision, and one of the two classifier reasons. -/
theorem discoverGalleries_skips_action (s : ScanSettings) (absBase relBase : FPath)
    (t : FsTree) :
    ∀ a ∈ (discoverGalleries s absBase relBase t).2.1,
      a.action = aScanGallery ∧ a.decision = sSKIP
        ∧ (a.reason_code = some rcNoImages ∨ a.reason_code = some rcBelowMin) := by
  intro a ha
  unfold discoverGalleries at ha
  dsimp only at ha
  obtain ⟨e, _, he⟩ := List.mem_filterMap.mp ha
  split_ifs at he with hq
  cases hsr : skipReasonFor s e.2.1 with
  | none =>
    rw [hsr] at he
    simp at he
  | some r =>
    rw [hsr] at he
    simp only [Option.map_some'] at he
    rw [← Option.some.inj he]
    refine ⟨rfl, rfl, ?_⟩
    rcases skipReasonFor_cases hsr with h | h
    · rw [h]
      exact Or.inl rfl
    · rw [h]
      exact Or.inr rfl

/-- The last component of a concatenation with a nonempty right part is
the last component of that part. -/
theorem pathName_append_right {p q : FPath} (hq : q ≠ []) :
    pathName (p ++ q) = pathName q := by
  simp [pathName, List.getLast?_append_of_ne_nil _ hq]

/-- The archive step always emits the copy archive action name and unit
similarity. -/
theorem archStep_fields (env : ScanEnv) (s : ScanSettings) (dry : Bool) (st : ScanState)
    (src rel : FPath) (size mtime : Nat) (physical virtualT : FPath) :
    (archStep env s dry st src rel size mtime physical virtualT).1.action = aCopyArchive
    ∧ (archStep env s dry st src rel size mtime physical virtualT).1.similarity = some 1 := by
  unfold archStep
  dsimp only
  split_ifs <;> exact ⟨rfl, rfl⟩

/-- The zip step emits one of the two zip action names and always carries
the fuzzy ratio of the two final path components. -/
theorem zipStep_fields (env : ScanEnv) (s : ScanSettings) (dry : Bool) (st : ScanState)
    (g : GalleryData) (target virtualT : FPath) :
    ((zipStep env s dry st g target virtualT).1.action = aZipGallery
      ∨ (zipStep env s dry st g target virtualT).1.action = aOverwriteZip)
    ∧ (zipStep env s dry st g target virtualT).1.similarity
        = some (fuzzRatio (pathName g.path) (pathName g.relDir) / 100) := by
  unfold zipStep
  dsimp only
  split_ifs <;> exact ⟨by first | exact Or.inl rfl | exact Or.inr rfl, rfl⟩

/-- The folder step always emits the foldercopy action name. -/
theorem folderStep_action (env : ScanEnv) (s : ScanSettings) (dry : Bool) (st : ScanState)
    (g : GalleryData) (sidecars : List (FPath × Nat × Nat)) (targetDir : FPath) :
    (folderStep env s dry st g sidecars targetDir).1.action = aFoldercopyGallery := by
  unfold folderStep
  dsimp only
  split_ifs <;> rfl

/-- Identical strings are at indel distance zero. -/
theorem indelDist_self : ∀ s : Str, indelDist s s = 0 := by
  intro s
  induction s with
  | nil => simp [indelDist]
  | cons c r ih => simp [indelDist, ih]

/-- The fuzzy ratio of a string with itself is one hundred. -/
theorem fuzzRatio_self (s : Str) : fuzzRatio s s = 100 := by
  unfold fuzzRatio
  split_ifs with h
  · rfl
  · rw [indelDist_self]
    simp

/-- Itemization facts of one source: every skip item carries the scan
gallery action name, and every zip item names a gallery whose absolute
path and data-root-relative directory share their final component,
provided the source path is nonempty. -/
theorem sourceItems_shape (env : ScanEnv) (s : ScanSettings) (exclusions : List FPath)
    (src : Source) (t : FsTree) (m : List (Str × Str)) (hsrc : src.path ≠ []) :
    ∀ it ∈ (sourceItems env s exclusions src t m).1,
      (∀ a, it = .skipIt a → a.action = aScanGallery ∧ a.decision = sSKIP
          ∧ (a.reason_code = some rcNoImages ∨ a.reason_code = some rcBelowMin))
      ∧ (∀ g tgt virt, it = .zipIt g tgt virt → pathName g.path = pathName g.relDir) := by
  intro it hit
  have hgal : ∀ g, g ∈ (discoverGalleries s (env.dataRoot ++ src.path) src.path t).1 →
      pathName g.path = pathName g.relDir := by
    intro g hg
    obtain ⟨hp, hr⟩ := discoverGalleries_paths s (env.dataRoot ++ src.path) src.path t g hg
    have hne : src.path ++ g.relw ≠ [] := by
      intro hcon
      exact hsrc (List.append_eq_nil.mp hcon).1
    rw [hp, hr, List.append_assoc, pathName_append_right hne]
  have harch : ∀ it2 ∈ (sourceArchPart env s exclusions src t m).1,
      (∀ a, it2 = .skipIt a → a.action = aScanGallery ∧ a.decision = sSKIP
          ∧ (a.reason_code = some rcNoImages ∨ a.reason_code = some rcBelowMin))
      ∧ (∀ g tgt virt, it2 = .zipIt g tgt virt → pathName g.path = pathName g.relDir) := by
    intro it2 hit2
    unfold sourceArchPart at hit2
    split_ifs at hit2 with hm
    · obtain ⟨a1, b1, c1, d1, e1, f1, he⟩ :=
        archiveItemsAux_shape env s src.path (env.dataRoot ++ src.path) exclusions _ _ it2 hit2
      subst he
      exact ⟨fun a ha => by simp at ha, fun g tgt virt hgg => by simp at hgg⟩
    · simp at hit2
  unfold sourceItems at hit
  dsimp only at hit
  split_ifs at hit with hpg
  · exact harch it hit
  · rcases List.mem_append.mp hit with h | h
    · rcases List.mem_append.mp h with h | h
      · rcases List.mem_append.mp h with h | h
        · exact harch it h
        · obtain ⟨a0, ha0, he⟩ := List.mem_map.mp h
          subst he
          refine ⟨fun a ha => ?_, fun g tgt virt hgg => by simp at hgg⟩
          have := discoverGalleries_skips_action s (env.dataRoot ++ src.path) src.path t a0 ha0
          cases ha
          exact this
      · unfold sourceEnsureItems at h
        split_ifs at h with hens
        · obtain ⟨relw, hrelw, he⟩ := List.mem_map.mp h
          subst he
          exact ⟨fun a ha => by simp at ha, fun g tgt virt hgg => by simp at hgg⟩
        · simp at h
    · rcases galleryItemsAux_shape env s src.path t exclusions _ _ it h with
        ⟨g2, hg2, he⟩ | ⟨g2, tgt, virt, hg2, he⟩ | ⟨g2, sc, tgt, hg2, he⟩
      · subst he
        exact ⟨fun a ha => by cases ha; exact ⟨rfl, rfl, Or.inl rfl⟩,
          fun g tgt virt hgg => by simp at hgg⟩
      · subst he
        refine ⟨fun a ha => by simp at ha, fun g3 tgt3 virt3 hgg => ?_⟩
        obtain ⟨he1, he2, he3⟩ : g2 = g3 ∧ tgt = tgt3 ∧ virt = virt3 := by
          cases hgg
          exact ⟨rfl, rfl, rfl⟩
        subst he1
        exact hgal g2 ((mem_sortBy _ _ g2).mp hg2)
      · subst he
        exact ⟨fun a ha => by simp at ha, fun g3 tgt3 virt3 hgg => by simp at hgg⟩

/-- Itemization facts of the whole scan. -/
theorem scanItems_shape (env : ScanEnv) (s : ScanSettings) (sources : List Source)
    (exclusions : List FPath) (tree : FsTree)
    (hsrc : ∀ src ∈ sources, src.path ≠ []) :
    ∀ it ∈ scanItems env s sources exclusions tree,
      (∀ a, it = .skipIt a → a.action = aScanGallery ∧ a.decision = sSKIP
          ∧ (a.reason_code = some rcNoImages ∨ a.reason_code = some rcBelowMin))
      ∧ (∀ g tgt virt, it = .zipIt g tgt virt → pathName g.path = pathName g.relDir) := by
  have haux : ∀ (srcs : List Source) (m : List (Str × Str)),
      (∀ src ∈ srcs, src.path ≠ []) →
      ∀ it ∈ scanItemsAux env s exclusions tree srcs m,
        (∀ a, it = .skipIt a → a.action = aScanGallery ∧ a.decision = sSKIP
            ∧ (a.reason_code = some rcNoImages ∨ a.reason_code = some rcBelowMin))
        ∧ (∀ g tgt virt, it = .zipIt g tgt virt → pathName g.path = pathName g.relDir) := by
    intro srcs
    induction srcs with
    | nil => intro m _ it hit; simp [scanItemsAux] at hit
    | cons src rest ih =>
      intro m hs it hit
      rw [scanItemsAux] at hit
      cases hsub : subtree tree src.path with
      | none =>
        rw [hsub] at hit
        exact ih m (fun q hq => hs q (List.mem_cons_of_mem src hq)) it hit
      | some t =>
        rw [hsub] at hit
        dsimp only at hit
        rcases List.mem_append.mp hit with h | h
        · exact sourceItems_shape env s exclusions src t m
            (hs src (List.mem_cons_self src rest)) it h
        · exact ih _ (fun q hq => hs q (List.mem_cons_of_mem src hq)) it h
  intro it hit
  exact haux _ [] (fun q hq => hsrc q ((mem_sortBy _ _ q).mp hq)) it hit

/-!  Claim C8: similarity of copy and zip actions. -/

def envC8 : ScanEnv :=
  { dataRoot := [lit "data"]
    outputRoot := [lit "out"]
    duplicatesRoot := [lit "dup"]
    duplicatesAvailable := false
    shortHash := fun s => s.take 8
    now := 7
    zipSize := 9
    dirStatSize := 4 }

def settingsC8 : ScanSettings :=
  { zip_galleries := true
    update_gallery_zips := false
    replicate_nesting := true
    leaf_only := false
    consider_images_in_subfolders := false
    output_mode := lit "zip"
    copy_sidecars := false
    lanraragi_flatten := false
    archive_extension_for_galleries := lit "zip"
    duplicates_enabled := false
    min_images_to_be_gallery := 1
    archive_extensions := [lit "zip"]
    image_extensions := [lit "jpg"] }

def treeC8 : FsTree := .node [(lit "a.jpg", 5, 6)] []

def srcC8 : Source := ⟨[], lit "both"⟩

def srcW8 : Source := ⟨[lit "s"], lit "both"⟩

def treeW8 : FsTree := .node [] [(lit "s", treeC8)]

/-- C8 (amended): provided every enabled source has a nonempty relative
path, every copy_archive, zip_gallery and overwrite_zip action of a scan
carries similarity exactly one; the archive half holds unconditionally,
and the gallery half holds because the gallery path and its
data-root-relative directory then share their final component. -/
theorem planner_similarity_unit (env : ScanEnv) (s : ScanSettings) (sources : List Source)
    (exclusions : List FPath) (tree : FsTree) (dry : Bool) (st : ScanState)
    (hsrc : ∀ src ∈ sources, src.path ≠ []) :
    ∀ a ∈ (performScan env s sources exclusions tree dry st).actions,
      a.action = aCopyArchive ∨ a.action = aZipGallery ∨ a.action = aOverwriteZip →
      a.similarity = some 1 := by
  intro a ha hact
  unfold performScan at ha
  rw [runScanAux_actions] at ha
  rw [List.nil_append] at ha
  obtain ⟨it, hit, st2, hst2⟩ := scanActionsFrom_mem env s dry _ st a ha
  have hshape := scanItems_shape env s sources exclusions tree hsrc it hit
  cases it with
  | archiveIt src rel size mtime physical virtualT =>
    rw [hst2]
    exact (archStep_fields env s dry st2 src rel size mtime physical virtualT).2
  | skipIt a0 =>
    exfalso
    have h1 : a.action = aScanGallery := by
      rw [hst2]
      exact (hshape.1 a0 rfl).1
    rcases hact with h | h | h <;> rw [h1] at h <;> exact absurd h (by decide)
  | ensureIt srcDir relDir target =>
    exfalso
    have h1 : a.action = aEnsureOutputDir := by
      rw [hst2]
      rfl
    rcases hact with h | h | h <;> rw [h1] at h <;> exact absurd h (by decide)
  | zipIt g target virtualT =>
    have hname : pathName g.path = pathName g.relDir := hshape.2 g target virtualT rfl
    have h100 : (100 : ℚ) / 100 = 1 := by norm_num
    rw [hst2]
    show (zipStep env s dry st2 g target virtualT).1.similarity = some 1
    rw [(zipStep_fields env s dry st2 g target virtualT).2]
    rw [hname, fuzzRatio_self, h100]
  | folderIt g sidecars target =>
    exfalso
    have h1 : a.action = aFoldercopyGallery := by
      rw [hst2]
      exact folderStep_action env s dry st2 g sidecars target
    rcases hact with h | h | h <;> rw [h1] at h <;> exact absurd h (by decide)

/-- C8 witness: the amended similarity theorem applied to a scan of one
source with a nonempty path holding a single one-image gallery. -/
theorem planner_similarity_unit_witness :
    (∀ src ∈ [srcW8], src.path ≠ []) ∧
    (∀ a ∈ (performScan envC8 settingsC8 [srcW8] [] treeW8 false emptyScanState).actions,
      a.action = aCopyArchive ∨ a.action = aZipGallery ∨ a.action = aOverwriteZip →
      a.similarity = some 1) :=
  ⟨by decide,
    planner_similarity_unit envC8 settingsC8 [srcW8] [] treeW8 false emptyScanState
      (by decide)⟩

/-- C8 counterexample: a source registered with the empty relative path
(the route sanitizer admits "" and ".") puts the gallery at the source
root, where rel_dir is the dot path whose name is empty while the gallery
directory's basename is the data root's name; the zip action then carries
the fuzzy ratio of "data" against "", which is zero, not one. -/
theorem planner_similarity_counterexample :
    ∃ a ∈ (performScan envC8 settingsC8 [srcC8] [] treeC8 false emptyScanState).actions,
      a.action = aZipGallery ∧ a.similarity ≠ some 1 := by
  have hmap : (performScan envC8 settingsC8 [srcC8] [] treeC8 false emptyScanState).actions.map
      (fun a => (a.action, a.similarity))
      = [(aZipGallery, some (fuzzRatio (lit "data") [] / 100))] := rfl
  have hlit : lit "data" = ['d', 'a', 't', 'a'] := rfl
  have hind : indelDist (lit "data") [] = 4 := by
    rw [hlit]
    simp [indelDist]
  have hfz : fuzzRatio (lit "data") [] = 0 := by
    unfold fuzzRatio
    rw [if_neg (by rw [hlit]; decide)]
    rw [hind, hlit]
    norm_num
  cases hacts : (performScan envC8 settingsC8 [srcC8] [] treeC8 false emptyScanState).actions with
  | nil =>
    rw [hacts] at hmap
    simp at hmap
  | cons a rest =>
    rw [hacts] at hmap
    simp only [List.map_cons] at hmap
    obtain ⟨hpair, _⟩ := List.cons.inj hmap
    simp only [Prod.mk.injEq] at hpair
    refine ⟨a, List.mem_cons_self a rest, hpair.1, ?_⟩
    rw [hpair.2, hfz]
    simp

/-!  Claim C2: second-run behaviour.  The run-one analysis needs the cells
an item writes and the cell its decision inspects; the run-two analysis
needs the settledness a first run establishes. -/

/-- The cell the planning decision of an item inspects and the record
store keys on: the physical archive target, the zip target, the foldercopy
target directory; classifier skips and ensure items inspect nothing. -/
def dTarget : ScanItem → Option FPath
  | .archiveIt _ _ _ _ physical _ => some physical
  | .skipIt _ => none
  | .ensureIt _ _ _ => none
  | .zipIt _ target _ => some target
  | .folderIt _ _ target => some target

/-- The output cells the primary branch of an item writes: the target
file and its parent chain, the ensured chain, or the foldercopy directory
with every copied file and its parent chain. -/
def fsFootprint : ScanItem → List FPath
  | .archiveIt _ _ _ _ physical _ => physical :: ancestorsOf (pathParent physical)
  | .skipIt _ => []
  | .ensureIt _ _ target => ancestorsOf target
  | .zipIt _ target _ => target :: ancestorsOf (pathParent target)
  | .folderIt g sidecars target =>
    target :: ancestorsOf target
      ++ (g.images ++ sidecars).flatMap (fun e =>
          (target ++ e.1) :: ancestorsOf (pathParent (target ++ e.1)))

/-- Non-interference of an ordered pair of items: the later decision cell
lies outside the earlier write footprint. -/
def sepB (it1 it2 : ScanItem) : Bool :=
  match dTarget it2 with
  | some p => !(fsFootprint it1).contains p
  | none => true

/-- Decision cells are nonempty paths. -/
def targetNonemptyB (it : ScanItem) : Bool :=
  match dTarget it with
  | some p => !p.isEmpty
  | none => true

/-- Settledness of one item in a state: its decision cell exists and the
record there carries exactly its signature, so re-planning the item skips
it by content. -/
def settled (st : ScanState) : ScanItem → Prop
  | .archiveIt _ _ size mtime physical _ =>
    fsExists st.fs physical = true
      ∧ recSigMatches (st.records physical) (.archive size mtime) = true
  | .skipIt _ => True
  | .ensureIt _ _ _ => True
  | .zipIt g target _ =>
    fsExists st.fs target = true ∧ recSigMatches (st.records target) g.signature = true
  | .folderIt g _ target =>
    fsExists st.fs target = true ∧ recSigMatches (st.records target) g.signature = true

/-- Cleanliness of one item in a state: its decision cell holds neither an
output entry nor a record. -/
def cleanFor (st : ScanState) (it : ScanItem) : Prop :=
  ∀ p, dTarget it = some p → st.fs p = none ∧ st.records p = none

/-- The classification of run-two actions: a container ensure, or a skip
whose reason is unchanged content, same signature, or one of the two
classifier reasons. -/
def actionOK (a : PlanAction) : Prop :=
  a.decision = sENSURE_DIR
  ∨ (a.decision = sSKIP
      ∧ (a.reason_code = some rcUnchanged ∨ a.reason_code = some rcSameSignature
          ∨ a.reason_code = some rcNoImages ∨ a.reason_code = some rcBelowMin))

/-- Shape of the precomputed skip items of the work list: a skip decision
with one of the two classifier reasons. -/
def skipShapeOK : ScanItem → Prop
  | .skipIt a =>
    a.decision = sSKIP
      ∧ (a.reason_code = some rcNoImages ∨ a.reason_code = some rcBelowMin)
  | _ => True

/-- An item's decision cell lies in its own write footprint. -/
theorem mem_self_footprint {it : ScanItem} {p : FPath} (h : dTarget it = some p) :
    p ∈ fsFootprint it := by
  cases it with
  | archiveIt a b c d physical f =>
    rw [Option.some.inj h]
    exact List.mem_cons_self _ _
  | skipIt a => simp [dTarget] at h
  | ensureIt a b c => simp [dTarget] at h
  | zipIt g target v =>
    rw [Option.some.inj h]
    exact List.mem_cons_self _ _
  | folderIt g sc target =>
    rw [Option.some.inj h]
    exact List.mem_cons_self _ _

/-- A path is its own deepest ancestor. -/
theorem mem_ancestorsOf_self {p : FPath} (hp : p ≠ []) : p ∈ ancestorsOf p := by
  unfold ancestorsOf
  refine List.mem_map.mpr ⟨p.length - 1, ?_, ?_⟩
  · refine List.mem_range.mpr ?_
    have : 0 < p.length := List.length_pos.mpr hp
    omega
  · have h1 : p.length - 1 + 1 = p.length := by
      have : 0 < p.length := List.length_pos.mpr hp
      omega
    rw [h1, List.take_length]

/-- Point update monotonicity. -/
theorem fsExists_fsSet_mono {fs : OutFs} {p q : FPath} {e : FsEntry}
    (h : fsExists fs q = true) : fsExists (fsSet fs p e) q = true := by
  unfold fsSet fsExists
  dsimp only
  split_ifs <;> simp_all [fsExists]

/-- The updated cell exists. -/
theorem fsExists_fsSet_self (fs : OutFs) (p : FPath) (e : FsEntry) :
    fsExists (fsSet fs p e) p = true := by
  simp [fsSet, fsExists]

/-- Point update frame. -/
theorem fsSet_frame {fs : OutFs} {p q : FPath} {e : FsEntry} (h : q ≠ p) :
    fsSet fs p e q = fs q := by
  simp [fsSet, h]

/-- The directory-creating fold of mkdirP keeps every existing cell. -/
theorem mkdirFold_mono : ∀ (l : List FPath) (fs : OutFs) (q : FPath),
    fsExists fs q = true →
    fsExists (l.foldl
      (fun f c => match f c with | some _ => f | none => fsSet f c .dir) fs) q = true := by
  intro l
  induction l with
  | nil => intro fs q h; exact h
  | cons c rest ih =>
    intro fs q h
    rw [List.foldl_cons]
    refine ih _ q ?_
    cases hc : fs c with
    | some e => simpa [hc] using h
    | none => simp only [hc]; exact fsExists_fsSet_mono h

/-- The fold of mkdirP writes only the listed cells. -/
theorem mkdirFold_frame : ∀ (l : List FPath) (fs : OutFs) (q : FPath), q ∉ l →
    (l.foldl (fun f c => match f c with | some _ => f | none => fsSet f c .dir) fs) q
      = fs q := by
  intro l
  induction l with
  | nil => intro fs q _; rfl
  | cons c rest ih =>
    intro fs q hq
    rw [List.foldl_cons]
    have hqc : q ≠ c := fun hcon => hq (hcon ▸ List.mem_cons_self c rest)
    have hqr : q ∉ rest := fun hcon => hq (List.mem_cons_of_mem c hcon)
    rw [ih _ q hqr]
    cases hc : fs c with
    | some e => simp only [hc]
    | none => simp only [hc]; exact fsSet_frame hqc

/-- Every listed cell exists after the fold of mkdirP. -/
theorem mkdirFold_self : ∀ (l : List FPath) (fs : OutFs) (q : FPath), q ∈ l →
    fsExists (l.foldl
      (fun f c => match f c with | some _ => f | none => fsSet f c .dir) fs) q = true := by
  intro l
  induction l with
  | nil => intro fs q h; simp at h
  | cons c rest ih =>
    intro fs q hq
    rw [List.foldl_cons]
    rcases List.mem_cons.mp hq with hq | hq
    · subst hq
      refine mkdirFold_mono rest _ q ?_
      cases hc : fs q with
      | some e => simp [fsExists, hc]
      | none => simp only [hc]; exact fsExists_fsSet_self _ _ _
    · exact ih _ q hq

/-- Mkdir with parents keeps every existing cell. -/
theorem mkdirP_mono {fs : OutFs} {p q : FPath} (h : fsExists fs q = true) :
    fsExists (mkdirP fs p) q = true := mkdirFold_mono _ fs q h

/-- Mkdir with parents writes only along the ancestor chain. -/
theorem mkdirP_frame {fs : OutFs} {p q : FPath} (h : q ∉ ancestorsOf p) :
    mkdirP fs p q = fs q := mkdirFold_frame _ fs q h

/-- Mkdir with parents establishes the directory itself. -/
theorem mkdirP_self {fs : OutFs} {p : FPath} (hp : p ≠ []) :
    fsExists (mkdirP fs p) p = true :=
  mkdirFold_self _ fs p (mem_ancestorsOf_self hp)

/-- File copy keeps every existing cell. -/
theorem copyFileFs_mono {fs : OutFs} {dest q : FPath} {size mtime : Nat}
    (h : fsExists fs q = true) : fsExists (copyFileFs fs dest size mtime) q = true :=
  fsExists_fsSet_mono (mkdirP_mono h)

/-- File copy establishes the destination. -/
theorem copyFileFs_self (fs : OutFs) (dest : FPath) (size mtime : Nat) :
    fsExists (copyFileFs fs dest size mtime) dest = true :=
  fsExists_fsSet_self _ _ _

/-- File copy writes only the destination and its parent chain. -/
theorem copyFileFs_frame {fs : OutFs} {dest q : FPath} {size mtime : Nat}
    (h1 : q ≠ dest) (h2 : q ∉ ancestorsOf (pathParent dest)) :
    copyFileFs fs dest size mtime q = fs q := by
  unfold copyFileFs
  rw [fsSet_frame h1, mkdirP_frame h2]

/-- Zip write keeps every existing cell. -/
theorem writeZipFs_mono {env : ScanEnv} {fs : OutFs} {target q : FPath}
    (h : fsExists fs q = true) : fsExists (writeZipFs env fs target) q = true :=
  fsExists_fsSet_mono (mkdirP_mono h)

/-- Zip write establishes the target. -/
theorem writeZipFs_self (env : ScanEnv) (fs : OutFs) (target : FPath) :
    fsExists (writeZipFs env fs target) target = true :=
  fsExists_fsSet_self _ _ _

/-- Zip write writes only the target and its parent chain. -/
theorem writeZipFs_frame {env : ScanEnv} {fs : OutFs} {target q : FPath}
    (h1 : q ≠ target) (h2 : q ∉ ancestorsOf (pathParent target)) :
    writeZipFs env fs target q = fs q := by
  unfold writeZipFs
  rw [fsSet_frame h1, mkdirP_frame h2]

/-- The copy fold of a folder copy keeps every existing cell. -/
theorem copyFold_mono (target : FPath) :
    ∀ (files : List (FPath × Nat × Nat)) (fs : OutFs) (q : FPath),
      fsExists fs q = true →
      fsExists (files.foldl
        (fun f e => copyFileFs f (target ++ e.1) e.2.1 e.2.2) fs) q = true := by
  intro files
  induction files with
  | nil => intro fs q h; exact h
  | cons e rest ih =>
    intro fs q h
    rw [List.foldl_cons]
    exact ih _ q (copyFileFs_mono h)

/-- The copy fold writes only the copied files and their parent chains. -/
theorem copyFold_frame (target : FPath) :
    ∀ (files : List (FPath × Nat × Nat)) (fs : OutFs) (q : FPath),
      (∀ e ∈ files, q ≠ target ++ e.1 ∧ q ∉ ancestorsOf (pathParent (target ++ e.1))) →
      (files.foldl (fun f e => copyFileFs f (target ++ e.1) e.2.1 e.2.2) fs) q = fs q := by
  intro files
  induction files with
  | nil => intro fs q _; rfl
  | cons e rest ih =>
    intro fs q hq
    rw [List.foldl_cons]
    rw [ih _ q (fun e2 he2 => hq e2 (List.mem_cons_of_mem e he2))]
    obtain ⟨h1, h2⟩ := hq e (List.mem_cons_self e rest)
    exact copyFileFs_frame h1 h2

/-- Folder copy keeps every existing cell. -/
theorem folderCopyFs_mono {fs : OutFs} {target q : FPath}
    {files : List (FPath × Nat × Nat)} (h : fsExists fs q = true) :
    fsExists (folderCopyFs fs target files) q = true :=
  copyFold_mono target files _ q (mkdirP_mono h)

/-- Folder copy establishes the target directory. -/
theorem folderCopyFs_self {fs : OutFs} {target : FPath}
    {files : List (FPath × Nat × Nat)} (hne : target ≠ []) :
    fsExists (folderCopyFs fs target files) target = true :=
  copyFold_mono target files _ target (mkdirP_self hne)

/-- Folder copy writes only the directory chain and the copied files. -/
theorem folderCopyFs_frame {fs : OutFs} {target q : FPath}
    {files : List (FPath × Nat × Nat)}
    (h1 : q ∉ ancestorsOf target)
    (h2 : ∀ e ∈ files, q ≠ target ++ e.1 ∧ q ∉ ancestorsOf (pathParent (target ++ e.1))) :
    folderCopyFs fs target files q = fs q := by
  unfold folderCopyFs
  rw [copyFold_frame target files _ q h2, mkdirP_frame h1]

/-- A touch preserves the signature-match predicate at every cell. -/
theorem touchRecord_matches (rs : RecordStore) (t : FPath) (now : Nat) (q : FPath)
    (sig : Sig) : recSigMatches (touchRecord rs t now q) sig = recSigMatches (rs q) sig := by
  unfold touchRecord
  split_ifs with h
  · subst h
    cases rs q with
    | none => rfl
    | some r => rfl
  · rfl

/-- An upsert leaves every other cell of the record store unchanged. -/
theorem upsertRecord_frame {rs : RecordStore} {target src : FPath} {ty : Str} {sig : Sig}
    {virt : Option FPath} {now : Nat} {q : FPath} (h : q ≠ target) :
    upsertRecord rs target src ty sig virt now q = rs q := by
  simp [upsertRecord, h]

/-- An upsert establishes the signature match at its own cell. -/
theorem upsertRecord_matches (rs : RecordStore) (target src : FPath) (ty : Str) (sig : Sig)
    (virt : Option FPath) (now : Nat) :
    recSigMatches (upsertRecord rs target src ty sig virt now target) sig = true := by
  unfold upsertRecord
  simp only [if_pos rfl]
  cases rs target with
  | none => simp [recSigMatches]
  | some r => simp [recSigMatches]

/-- No planning step ever removes an output cell. -/
theorem stepItem_fs_mono (env : ScanEnv) (s : ScanSettings) (dry : Bool) (st : ScanState)
    (it : ScanItem) (q : FPath) (h : fsExists st.fs q = true) :
    fsExists (stepItem env s dry st it).2.fs q = true := by
  cases it with
  | archiveIt src rel size mtime physical virtualT =>
    show fsExists (archStep env s dry st src rel size mtime physical virtualT).2.fs q = true
    unfold archStep
    dsimp only
    split_ifs <;> first | exact h | exact copyFileFs_mono h
  | skipIt a => exact h
  | ensureIt srcDir relDir target =>
    show fsExists (ensureStep dry st srcDir relDir target).2.fs q = true
    unfold ensureStep
    dsimp only
    split_ifs <;> first | exact h | exact mkdirP_mono h
  | zipIt g target virtualT =>
    show fsExists (zipStep env s dry st g target virtualT).2.fs q = true
    unfold zipStep
    dsimp only
    split_ifs <;> first | exact h | exact writeZipFs_mono h
  | folderIt g sidecars target =>
    show fsExists (folderStep env s dry st g sidecars target).2.fs q = true
    unfold folderStep
    dsimp only
    split_ifs <;> first | exact h | exact folderCopyFs_mono h

/-- Settledness transfers along existence-monotone maps that keep the
record cell of the item. -/
theorem settled_of_frames {st st2 : ScanState} {it : ScanItem}
    (hs : settled st it)
    (hfs : ∀ q, fsExists st.fs q = true → fsExists st2.fs q = true)
    (hrec : ∀ p, dTarget it = some p → st2.records p = st.records p) :
    settled st2 it := by
  cases it with
  | skipIt a => trivial
  | ensureIt a b c => trivial
  | archiveIt a b c d p f =>
    refine ⟨hfs p hs.1, ?_⟩
    rw [hrec p rfl]
    exact hs.2
  | zipIt g t v =>
    refine ⟨hfs t hs.1, ?_⟩
    rw [hrec t rfl]
    exact hs.2
  | folderIt g sc t =>
    refine ⟨hfs t hs.1, ?_⟩
    rw [hrec t rfl]
    exact hs.2

/-- A record touch preserves the settledness of every item. -/
theorem settled_touch (st : ScanState) (t : FPath) (now : Nat) (it2 : ScanItem)
    (h2 : settled st it2) :
    settled { st with records := touchRecord st.records t now } it2 := by
  cases it2 with
  | skipIt a => trivial
  | ensureIt a b c => trivial
  | archiveIt a b c d p f =>
    refine ⟨h2.1, ?_⟩
    show recSigMatches (touchRecord st.records t now p) (.archive c d) = true
    rw [touchRecord_matches]
    exact h2.2
  | zipIt g tg v =>
    refine ⟨h2.1, ?_⟩
    show recSigMatches (touchRecord st.records t now tg) g.signature = true
    rw [touchRecord_matches]
    exact h2.2
  | folderIt g sc tg =>
    refine ⟨h2.1, ?_⟩
    show recSigMatches (touchRecord st.records t now tg) g.signature = true
    rw [touchRecord_matches]
    exact h2.2

/-- Creating directories preserves the settledness of every item. -/
theorem settled_mkdir (st : ScanState) (p : FPath) (it2 : ScanItem)
    (h2 : settled st it2) :
    settled { st with fs := mkdirP st.fs p } it2 :=
  settled_of_frames h2 (fun _ hq => mkdirP_mono hq) (fun _ _ => rfl)

/-- A planning step on a clean decision cell: it settles its item, writes
the output only inside the item's footprint, and writes records only at
the decision cell. -/
theorem stepItem_clean (env : ScanEnv) (s : ScanSettings) (st : ScanState) (it : ScanItem)
    (hcl : cleanFor st it) (hne : targetNonemptyB it = true) :
    settled (stepItem env s false st it).2 it
    ∧ (∀ q, q ∉ fsFootprint it → (stepItem env s false st it).2.fs q = st.fs q)
    ∧ (∀ q, dTarget it ≠ some q → (stepItem env s false st it).2.records q = st.records q) := by
  cases it with
  | skipIt a => exact ⟨trivial, fun _ _ => rfl, fun _ _ => rfl⟩
  | ensureIt srcDir relDir target =>
    refine ⟨trivial, ?_, fun _ _ => rfl⟩
    intro q hq
    show mkdirP st.fs target q = st.fs q
    exact mkdirP_frame (by simpa [fsFootprint] using hq)
  | archiveIt src rel size mtime physical virtualT =>
    obtain ⟨hfs, hrec⟩ := hcl physical rfl
    have hex : fsExists st.fs physical = false := by simp [fsExists, hfs]
    have hst : (stepItem env s false st (.archiveIt src rel size mtime physical virtualT)).2
        = ⟨copyFileFs st.fs physical size mtime,
            upsertRecord st.records physical src tArchive (.archive size mtime)
              (some virtualT) env.now⟩ := by
      show (archStep env s false st src rel size mtime physical virtualT).2 = _
      unfold archStep
      dsimp only
      rw [hex]
      rfl
    refine ⟨?_, ?_, ?_⟩
    · rw [hst]
      exact ⟨copyFileFs_self st.fs physical size mtime,
        upsertRecord_matches st.records physical src tArchive (.archive size mtime)
          (some virtualT) env.now⟩
    · intro q hq
      rw [hst]
      show copyFileFs st.fs physical size mtime q = st.fs q
      simp only [fsFootprint, List.mem_cons] at hq
      push_neg at hq
      exact copyFileFs_frame hq.1 hq.2
    · intro q hq
      rw [hst]
      show upsertRecord st.records physical src tArchive (.archive size mtime)
          (some virtualT) env.now q = st.records q
      refine upsertRecord_frame ?_
      intro hcon
      subst hcon
      exact hq rfl
  | zipIt g target virtualT =>
    obtain ⟨hfs, hrec⟩ := hcl target rfl
    have hex : fsExists st.fs target = false := by simp [fsExists, hfs]
    have hst : (stepItem env s false st (.zipIt g target virtualT)).2
        = ⟨writeZipFs env st.fs target,
            upsertRecord st.records target g.path tGalleryzip g.signature
              (some virtualT) env.now⟩ := by
      show (zipStep env s false st g target virtualT).2 = _
      unfold zipStep
      dsimp only
      rw [hex]
      rfl
    refine ⟨?_, ?_, ?_⟩
    · rw [hst]
      exact ⟨writeZipFs_self env st.fs target,
        upsertRecord_matches st.records target g.path tGalleryzip g.signature
          (some virtualT) env.now⟩
    · intro q hq
      rw [hst]
      show writeZipFs env st.fs target q = st.fs q
      simp only [fsFootprint, List.mem_cons] at hq
      push_neg at hq
      exact writeZipFs_frame hq.1 hq.2
    · intro q hq
      rw [hst]
      show upsertRecord st.records target g.path tGalleryzip g.signature
          (some virtualT) env.now q = st.records q
      refine upsertRecord_frame ?_
      intro hcon
      subst hcon
      exact hq rfl
  | folderIt g sidecars target =>
    obtain ⟨hfs, hrec⟩ := hcl target rfl
    have hne2 : target ≠ [] := by
      intro hcon
      rw [hcon] at hne
      simp [targetNonemptyB, dTarget] at hne
    have hex : fsExists st.fs target = false := by simp [fsExists, hfs]
    have hst : (stepItem env s false st (.folderIt g sidecars target)).2
        = ⟨folderCopyFs st.fs target (g.images ++ sidecars),
            upsertRecord st.records target g.path tFoldercopy g.signature
              (some target) env.now⟩ := by
      show (folderStep env s false st g sidecars target).2 = _
      unfold folderStep
      dsimp only
      rw [hex]
      rfl
    refine ⟨?_, ?_, ?_⟩
    · rw [hst]
      exact ⟨folderCopyFs_self hne2,
        upsertRecord_matches st.records target g.path tFoldercopy g.signature
          (some target) env.now⟩
    · intro q hq
      rw [hst]
      show folderCopyFs st.fs target (g.images ++ sidecars) q = st.fs q
      have hanc : q ∉ ancestorsOf target := fun hmem =>
        hq (List.mem_cons_of_mem _ (List.mem_append.mpr (Or.inl hmem)))
      have hfiles : ∀ e ∈ g.images ++ sidecars,
          q ≠ target ++ e.1 ∧ q ∉ ancestorsOf (pathParent (target ++ e.1)) := by
        intro e he
        constructor
        · intro hcon
          refine hq (List.mem_cons_of_mem _ (List.mem_append.mpr (Or.inr
            (List.mem_flatMap.mpr ⟨e, he, ?_⟩))))
          rw [hcon]
          exact List.mem_cons_self _ _
        · intro hcon
          exact hq (List.mem_cons_of_mem _ (List.mem_append.mpr (Or.inr
            (List.mem_flatMap.mpr ⟨e, he, List.mem_cons_of_mem _ hcon⟩))))
      exact folderCopyFs_frame hanc hfiles
    · intro q hq
      rw [hst]
      show upsertRecord st.records target g.path tFoldercopy g.signature
          (some target) env.now q = st.records q
      refine upsertRecord_frame ?_
      intro hcon
      subst hcon
      exact hq rfl

/-- A planning step on a settled item emits a container ensure or a
content-confirming skip, and preserves the settledness of every item. -/
theorem stepItem_settled_step (env : ScanEnv) (s : ScanSettings) (st : ScanState)
    (it : ScanItem) (hs : settled st it) (hsh : skipShapeOK it) :
    actionOK (stepItem env s false st it).1
    ∧ ∀ it2, settled st it2 → settled (stepItem env s false st it).2 it2 := by
  cases it with
  | skipIt a =>
    exact ⟨Or.inr ⟨hsh.1, Or.inr (Or.inr hsh.2)⟩, fun _ h2 => h2⟩
  | ensureIt srcDir relDir target =>
    exact ⟨Or.inl rfl, fun it2 h2 => settled_mkdir st target it2 h2⟩
  | archiveIt src rel size mtime physical virtualT =>
    have hst : (stepItem env s false st (.archiveIt src rel size mtime physical virtualT)).2
        = { st with records := touchRecord st.records physical env.now } := by
      show (archStep env s false st src rel size mtime physical virtualT).2 = _
      unfold archStep
      dsimp only
      rw [if_pos hs.1, if_pos hs.2]
      rfl
    constructor
    · show actionOK (archStep env s false st src rel size mtime physical virtualT).1
      unfold archStep
      dsimp only
      rw [if_pos hs.1, if_pos hs.2]
      exact Or.inr ⟨rfl, Or.inl rfl⟩
    · intro it2 hit2
      rw [hst]
      exact settled_touch st physical env.now it2 hit2
  | zipIt g target virtualT =>
    have hst : (stepItem env s false st (.zipIt g target virtualT)).2
        = { st with records := touchRecord st.records target env.now } := by
      show (zipStep env s false st g target virtualT).2 = _
      unfold zipStep
      dsimp only
      rw [if_pos hs.1, if_pos hs.2]
      rfl
    constructor
    · show actionOK (zipStep env s false st g target virtualT).1
      unfold zipStep
      dsimp only
      rw [if_pos hs.1, if_pos hs.2]
      exact Or.inr ⟨rfl, Or.inr (Or.inl rfl)⟩
    · intro it2 hit2
      rw [hst]
      exact settled_touch st target env.now it2 hit2
  | folderIt g sidecars target =>
    have hcond : (fsExists st.fs target
        && recSigMatches (st.records target) g.signature) = true := by
      rw [hs.1, hs.2]
      rfl
    have hst : (stepItem env s false st (.folderIt g sidecars target)).2
        = { st with records := touchRecord st.records target env.now } := by
      show (folderStep env s false st g sidecars target).2 = _
      unfold folderStep
      dsimp only
      rw [if_pos hcond]
      rfl
    constructor
    · show actionOK (folderStep env s false st g sidecars target).1
      unfold folderStep
      dsimp only
      rw [if_pos hcond]
      exact Or.inr ⟨rfl, Or.inr (Or.inl rfl)⟩
    · intro it2 hit2
      rw [hst]
      exact settled_touch st target env.now it2 hit2

/-- A whole run never removes an output cell. -/
theorem runScanAux_fs_mono (env : ScanEnv) (s : ScanSettings) (dry : Bool) :
    ∀ (items : List ScanItem) (st : ScanState) (sum : ScanSummary)
      (acts : List PlanAction) (q : FPath),
      fsExists st.fs q = true →
      fsExists (runScanAux env s dry items st sum acts).state.fs q = true := by
  intro items
  induction items with
  | nil => intro st sum acts q h; exact h
  | cons it rest ih =>
    intro st sum acts q h
    rw [runScanAux]
    exact ih _ _ _ q (stepItem_fs_mono env s dry st it q h)

/-- Run one from clean decision cells: under pairwise non-interference
the run settles every item, and the record store is unchanged away from
the decision cells. -/
theorem run1_establishes (env : ScanEnv) (s : ScanSettings) :
    ∀ (items : List ScanItem) (st : ScanState) (sum : ScanSummary) (acts : List PlanAction),
      items.Pairwise (fun a b => sepB a b = true) →
      (∀ it ∈ items, targetNonemptyB it = true) →
      (∀ it ∈ items, cleanFor st it) →
      (∀ it ∈ items, settled (runScanAux env s false items st sum acts).state it)
      ∧ (∀ p, (∀ it2 ∈ items, dTarget it2 ≠ some p) →
          (runScanAux env s false items st sum acts).state.records p = st.records p) := by
  intro items
  induction items with
  | nil =>
    intro st sum acts _ _ _
    exact ⟨by simp, fun p _ => rfl⟩
  | cons it rest ih =>
    intro st sum acts hpw hne hcl
    obtain ⟨hsepHead, hpwRest⟩ := List.pairwise_cons.mp hpw
    obtain ⟨hsettled, hfsframe, hrecframe⟩ :=
      stepItem_clean env s st it (hcl it (List.mem_cons_self it rest))
        (hne it (List.mem_cons_self it rest))
    have hclR : ∀ it2 ∈ rest, cleanFor (stepItem env s false st it).2 it2 := by
      intro it2 h2 p hp
      have hsep := hsepHead it2 h2
      have hpnot : p ∉ fsFootprint it := by
        unfold sepB at hsep
        rw [hp] at hsep
        simpa using hsep
      refine ⟨?_, ?_⟩
      · rw [hfsframe p hpnot]
        exact (hcl it2 (List.mem_cons_of_mem it h2) p hp).1
      · have hdne : dTarget it ≠ some p := fun hcon => hpnot (mem_self_footprint hcon)
        rw [hrecframe p hdne]
        exact (hcl it2 (List.mem_cons_of_mem it h2) p hp).2
    obtain ⟨ihA, ihB⟩ := ih (stepItem env s false st it).2
      (registerAction (stepItem env s false st it).1 sum acts).1
      (registerAction (stepItem env s false st it).1 sum acts).2
      hpwRest (fun q hq => hne q (List.mem_cons_of_mem it hq)) hclR
    rw [runScanAux]
    constructor
    · intro it2 h2
      rcases List.mem_cons.mp h2 with h2 | h2
      · subst h2
        refine settled_of_frames hsettled
          (fun q hq => runScanAux_fs_mono env s false rest _ _ _ q hq) ?_
        intro p hp
        refine ihB p ?_
        intro it3 h3 hcon
        have hsep := hsepHead it3 h3
        unfold sepB at hsep
        rw [hcon] at hsep
        exact (by simpa using hsep : p ∉ fsFootprint it2) (mem_self_footprint hp)
      · exact ihA it2 h2
    · intro p hp
      have hrest : ∀ it2 ∈ rest, dTarget it2 ≠ some p := fun it2 h2 =>
        hp it2 (List.mem_cons_of_mem it h2)
      rw [ihB p hrest]
      exact hrecframe p (hp it (List.mem_cons_self it rest))

/-- Run two over settled items: every emitted action is a container
ensure or a content-confirming skip. -/
theorem run2_all_ok (env : ScanEnv) (s : ScanSettings) :
    ∀ (items : List ScanItem) (st : ScanState),
      (∀ it ∈ items, settled st it) →
      (∀ it ∈ items, skipShapeOK it) →
      ∀ a ∈ scanActionsFrom env s false items st, actionOK a := by
  intro items
  induction items with
  | nil => intro st _ _ a ha; simp [scanActionsFrom] at ha
  | cons it rest ih =>
    intro st hs hsh a ha
    rw [scanActionsFrom] at ha
    obtain ⟨hok, hpres⟩ := stepItem_settled_step env s st it
      (hs it (List.mem_cons_self it rest)) (hsh it (List.mem_cons_self it rest))
    rcases List.mem_cons.mp ha with ha | ha
    · rw [ha]
      exact hok
    · exact ih _ (fun it2 h2 => hpres it2 (hs it2 (List.mem_cons_of_mem it h2)))
        (fun it2 h2 => hsh it2 (List.mem_cons_of_mem it h2)) a ha

/-- C2 (amended): for sources with nonempty relative paths whose work
items have pairwise non-interfering targets (no later decision cell inside
an earlier write footprint) and nonempty decision cells, running the scan
twice from the empty output tree and empty record store yields on the
second run only ENSURE_DIR actions and SKIP actions whose reason is
SKIP_EXISTING_UNCHANGED, SKIP_DUPLICATE_SAME_SIGNATURE, SKIP_NO_IMAGES or
SKIP_BELOW_MIN_IMAGES, and the planned counter counts exactly the
ENSURE_DIR actions.  Against the claim, the classifier skip reasons do
recur on the second run, and without the non-interference hypothesis
colliding targets re-plan work, as the counterexample shows. -/
theorem scan_second_run_skips (env : ScanEnv) (s : ScanSettings) (sources : List Source)
    (exclusions : List FPath) (tree : FsTree)
    (hsrc : ∀ src ∈ sources, src.path ≠ [])
    (hpw : (scanItems env s sources exclusions tree).Pairwise (fun a b => sepB a b = true))
    (hne : ∀ it ∈ scanItems env s sources exclusions tree, targetNonemptyB it = true) :
    (∀ a ∈ (performScan env s sources exclusions tree false
        (performScan env s sources exclusions tree false emptyScanState).state).actions,
      a.decision = sENSURE_DIR
      ∨ (a.decision = sSKIP
          ∧ (a.reason_code = some rcUnchanged ∨ a.reason_code = some rcSameSignature
              ∨ a.reason_code = some rcNoImages ∨ a.reason_code = some rcBelowMin)))
    ∧ (performScan env s sources exclusions tree false
        (performScan env s sources exclusions tree false emptyScanState).state).summary.planned
      = ((performScan env s sources exclusions tree false
          (performScan env s sources exclusions tree false emptyScanState).state).actions.filter
          (fun a => a.decision = sENSURE_DIR)).length := by
  have hsettled : ∀ it ∈ scanItems env s sources exclusions tree,
      settled (performScan env s sources exclusions tree false emptyScanState).state it := by
    intro it hit
    exact (run1_establishes env s (scanItems env s sources exclusions tree) emptyScanState
      emptySummary [] hpw hne (fun _ _ _ _ => ⟨rfl, rfl⟩)).1 it hit
  have hskOK : ∀ it ∈ scanItems env s sources exclusions tree, skipShapeOK it := by
    intro it hit
    cases it with
    | skipIt a =>
      have h := (scanItems_shape env s sources exclusions tree hsrc _ hit).1 a rfl
      exact ⟨h.2.1, h.2.2⟩
    | archiveIt a b c d e f => trivial
    | ensureIt a b c => trivial
    | zipIt a b c => trivial
    | folderIt a b c => trivial
  have hacts : (performScan env s sources exclusions tree false
      (performScan env s sources exclusions tree false emptyScanState).state).actions
      = scanActionsFrom env s false (scanItems env s sources exclusions tree)
          (performScan env s sources exclusions tree false emptyScanState).state := by
    show (runScanAux env s false (scanItems env s sources exclusions tree)
      (performScan env s sources exclusions tree false emptyScanState).state
      emptySummary []).actions = _
    rw [runScanAux_actions, List.nil_append]
  constructor
  · intro a ha
    rw [hacts] at ha
    exact run2_all_ok env s _ _ hsettled hskOK a ha
  · have hp2 : (performScan env s sources exclusions tree false
        (performScan env s sources exclusions tree false emptyScanState).state).summary.planned
        = ((scanActionsFrom env s false (scanItems env s sources exclusions tree)
            (performScan env s sources exclusions tree false emptyScanState).state).filter
            (fun a => !(a.decision = sSKIP : Bool))).length := by
      show (runScanAux env s false (scanItems env s sources exclusions tree)
        (performScan env s sources exclusions tree false emptyScanState).state
        emptySummary []).summary.planned = _
      rw [runScanAux_planned env s false (scanItems env s sources exclusions tree)
        (performScan env s sources exclusions tree false emptyScanState).state
        emptySummary []]
      simp [emptySummary]
    have hcong : ∀ a ∈ scanActionsFrom env s false (scanItems env s sources exclusions tree)
        (performScan env s sources exclusions tree false emptyScanState).state,
        ((a.decision = sENSURE_DIR : Bool)) = (!(a.decision = sSKIP : Bool)) := by
      intro a ha
      rcases run2_all_ok env s _ _ hsettled hskOK a ha with h | h
      · rw [h]
        decide
      · rw [h.1]
        decide
    rw [hp2, hacts]
    rw [List.filter_congr hcong]

/-- C2 witness: the amended second-run theorem applied to a one-gallery
scan whose single work item trivially satisfies the separation
hypotheses. -/
theorem scan_second_run_skips_witness :
    (scanItems envC8 settingsC8 [srcW8] [] treeW8).Pairwise (fun a b => sepB a b = true)
    ∧ ((∀ a ∈ (performScan envC8 settingsC8 [srcW8] [] treeW8 false
        (performScan envC8 settingsC8 [srcW8] [] treeW8 false emptyScanState).state).actions,
      a.decision = sENSURE_DIR
      ∨ (a.decision = sSKIP
          ∧ (a.reason_code = some rcUnchanged ∨ a.reason_code = some rcSameSignature
              ∨ a.reason_code = some rcNoImages ∨ a.reason_code = some rcBelowMin)))
    ∧ (performScan envC8 settingsC8 [srcW8] [] treeW8 false
        (performScan envC8 settingsC8 [srcW8] [] treeW8 false emptyScanState).state).summary.planned
      = ((performScan envC8 settingsC8 [srcW8] [] treeW8 false
          (performScan envC8 settingsC8 [srcW8] [] treeW8 false emptyScanState).state).actions.filter
          (fun a => a.decision = sENSURE_DIR)).length) :=
  ⟨by decide,
    scan_second_run_skips envC8 settingsC8 [srcW8] [] treeW8
      (by decide) (by decide) (by decide)⟩

/-!  C2 counterexample input: two archives at different relative paths
whose collapsed virtual paths coincide when nesting is not replicated. -/

def settingsC2 : ScanSettings :=
  { zip_galleries := false
    update_gallery_zips := false
    replicate_nesting := false
    leaf_only := false
    consider_images_in_subfolders := false
    output_mode := lit "zip"
    copy_sidecars := false
    lanraragi_flatten := false
    archive_extension_for_galleries := lit "zip"
    duplicates_enabled := false
    min_images_to_be_gallery := 1
    archive_extensions := [lit "zip"]
    image_extensions := [lit "jpg"] }

def treeC2 : FsTree :=
  .node []
    [(lit "s", .node []
      [(lit "a", .node [(lit "f.zip", 1, 1)] []),
        (lit "b", .node [(lit "f.zip", 2, 2)] [])])]

def srcC2 : Source := ⟨[lit "s"], lit "both"⟩

/-- C2 counterexample: with nesting not replicated, two archives named
f.zip under different subdirectories collapse to the same physical
target; the second scan of unchanged sources re-emits a RENAME conflict
action for the colliding archive, so not every second-run action is a
skip or an ensure, and the planned counter stays nonzero. -/
theorem scan_idempotence_counterexample :
    (∃ a ∈ (performScan envC8 settingsC2 [srcC2] [] treeC2 false
        (performScan envC8 settingsC2 [srcC2] [] treeC2 false emptyScanState).state).actions,
      a.decision = sRENAME ∧ ¬ (a.decision = sENSURE_DIR) ∧ ¬ (a.decision = sSKIP))
    ∧ (performScan envC8 settingsC2 [srcC2] [] treeC2 false
        (performScan envC8 settingsC2 [srcC2] [] treeC2 false emptyScanState).state).summary.planned
      = 1 := by
  have hmap : (performScan envC8 settingsC2 [srcC2] [] treeC2 false
      (performScan envC8 settingsC2 [srcC2] [] treeC2 false emptyScanState).state).actions.map
      (fun a => a.decision) = [sSKIP, sRENAME] := rfl
  have hmem : sRENAME ∈ (performScan envC8 settingsC2 [srcC2] [] treeC2 false
      (performScan envC8 settingsC2 [srcC2] [] treeC2 false emptyScanState).state).actions.map
      (fun a => a.decision) := by
    rw [hmap]
    exact List.mem_cons_of_mem _ (List.mem_cons_self _ _)
  obtain ⟨a, ha, hdec⟩ := List.mem_map.mp hmem
  refine ⟨⟨a, ha, hdec, ?_, ?_⟩, by decide⟩
  · rw [hdec]
    decide
  · rw [hdec]
    decide

end GalleryLoom
